import Mathlib

/-!
# mppcore: interrupt-controller configuration layer (bamblebee.hpp, riscv.hpp)

A shallow embedding of the ECLIC configuration code of `bamblebee.hpp` and of the
CSR access primitive of `riscv.hpp`, together with theorems about them.

* Memory-mapped registers are a byte-addressed memory `Nat → Nat` plus the list of
  bus writes issued so far. A `volatile uint8_t` store writes one byte, a
  `volatile uint32_t` store writes four bytes, little-endian (RISC-V).
* A `static_assert` is a guard: the operation returns `none` when the assertion
  fails (no program is produced, nothing runs), or is a proof field of the
  structure that stands for the instantiated class template.
* The constants the code takes from the chip headers (`ECLIC_ADDR_BASE`, the
  register offsets, `ECLIC_NUM_INTERRUPTS`, `ECLICINTCTLBITS`) are not part of the
  repository; they are the fields of `EclicMap`, a parameter of every definition.
-/

namespace mpp.core

/-! ## Memory-mapped register model -/

/-- One bus write: byte address, width in bytes (1 or 4) and the value stored. -/
structure BusWrite where
  addr : Nat
  width : Nat
  value : Nat
deriving DecidableEq

/-- The register block seen by the code: one byte per address, and the writes issued so far
(oldest first). -/
structure Machine where
  mem : Nat → Nat
  trace : List BusWrite

/-- Conversion to `std::uintptr_t` / `uint32_t` on the 32-bit target. -/
def uint32 (x : Nat) : Nat := x % 2 ^ 32

/-- Conversion to `std::uint8_t`. -/
def uint8 (x : Nat) : Nat := x % 2 ^ 8

/-- The store `*(volatile uint8_t*)a = v`. -/
def Machine.store8 (s : Machine) (a v : Nat) : Machine :=
  { mem := fun x => if x = a then uint8 v else s.mem x
    trace := s.trace ++ [⟨a, 1, uint8 v⟩] }

/-- The store `*(volatile uint32_t*)a = v`: four bytes, least significant first. -/
def Machine.store32 (s : Machine) (a v : Nat) : Machine :=
  { mem := fun x => if a ≤ x ∧ x < a + 4 then uint8 (uint32 v / 256 ^ (x - a)) else s.mem x
    trace := s.trace ++ [⟨a, 4, uint32 v⟩] }

/-! ## Constants from the chip headers -/

/-- The ECLIC constants used by `bamblebee.hpp`; their definitions live in the chip
headers, which are not part of the repository, so they are parameters here. -/
structure EclicMap where
  ECLIC_ADDR_BASE : Nat
  ECLIC_CFG_OFFSET : Nat
  ECLIC_MTH_OFFSET : Nat
  ECLIC_INT_IP_OFFSET : Nat
  ECLIC_INT_IE_OFFSET : Nat
  ECLIC_INT_ATTR_OFFSET : Nat
  ECLIC_INT_CTRL_OFFSET : Nat
  ECLIC_NUM_INTERRUPTS : Nat
  ECLICINTCTLBITS : Nat
deriving DecidableEq

/-- The shape of the ECLIC register map the theorems rely on: the global config byte lies
below the global threshold byte, both lie below the per-source array, a source's
pending / enable / attribute / control bytes are the four consecutive bytes of its slot, the
whole area reached by the clearing loop lies inside the 32-bit address space (no address
computation wraps), and at most 8 control bits are usable (the shift count
`8 - ECLICINTCTLBITS` is not negative). -/
def EclicMap.WF (m : EclicMap) : Prop :=
  m.ECLIC_CFG_OFFSET < m.ECLIC_MTH_OFFSET ∧
  m.ECLIC_MTH_OFFSET < m.ECLIC_INT_IP_OFFSET ∧
  m.ECLIC_INT_IE_OFFSET = m.ECLIC_INT_IP_OFFSET + 1 ∧
  m.ECLIC_INT_ATTR_OFFSET = m.ECLIC_INT_IP_OFFSET + 2 ∧
  m.ECLIC_INT_CTRL_OFFSET = m.ECLIC_INT_IP_OFFSET + 3 ∧
  m.ECLIC_ADDR_BASE + m.ECLIC_INT_IP_OFFSET + 16 * m.ECLIC_NUM_INTERRUPTS < 2 ^ 32 ∧
  m.ECLICINTCTLBITS ≤ 8

instance (m : EclicMap) : Decidable m.WF := by
  unfold EclicMap.WF; infer_instance

/-- The N200 (GD32VF103) values of the constants: base `0xD2000000`, config byte at offset 0,
threshold byte at offset `0xB`, per-source slots from offset `0x1000`, 87 lines, 4 usable
control bits. Used as the concrete instance in the examples. -/
def n200 : EclicMap :=
  { ECLIC_ADDR_BASE := 0xD2000000
    ECLIC_CFG_OFFSET := 0x0
    ECLIC_MTH_OFFSET := 0xB
    ECLIC_INT_IP_OFFSET := 0x1000
    ECLIC_INT_IE_OFFSET := 0x1001
    ECLIC_INT_ATTR_OFFSET := 0x1002
    ECLIC_INT_CTRL_OFFSET := 0x1003
    ECLIC_NUM_INTERRUPTS := 87
    ECLICINTCTLBITS := 4 }

/-! ## bamblebee.hpp: enumerations and traits -/

/-- The enumeration `PriorityLevelGroup`. -/
inductive PriorityLevelGroup where
  | L0P4 | L1P3 | L2P2 | L3P1 | L4P0
deriving DecidableEq

/-- The enumerator values `L0P4 = 0, ..., L4P0 = 4`. -/
def PriorityLevelGroup.toNat : PriorityLevelGroup → Nat
  | .L0P4 => 0
  | .L1P3 => 1
  | .L2P2 => 2
  | .L3P1 => 3
  | .L4P0 => 4

/-- A controller trait: `kPriorityLevelGroup` and `kThresholdLevel`. -/
structure EclicTrait where
  kPriorityLevelGroup : PriorityLevelGroup
  kThresholdLevel : Nat
deriving DecidableEq

/-- The trait `EclicExampleTrait` of the source. -/
def EclicExampleTrait : EclicTrait :=
  { kPriorityLevelGroup := .L3P1, kThresholdLevel := 0 }

/-- The enumeration `Trigger : uint8_t`. -/
inductive Trigger where
  | Level | Posedge | Negedge
deriving DecidableEq

/-- The enumerator values `Level = 0b000, Posedge = 0b010, Negedge = 0b110`. -/
def Trigger.toNat : Trigger → Nat
  | .Level => 0b000
  | .Posedge => 0b010
  | .Negedge => 0b110

/-- The enumeration `HandleMode : uint8_t`. -/
inductive HandleMode where
  | NonVectored | Vectored
deriving DecidableEq

/-- The enumerator values `NonVectored = 0b0, Vectored = 0b1`. -/
def HandleMode.toNat : HandleMode → Nat
  | .NonVectored => 0b0
  | .Vectored => 0b1

/-- A descriptor trait: `kHandleMode`, `kTrigger`, `kPriorityLevel`. -/
structure IrqTrait where
  kHandleMode : HandleMode
  kTrigger : Trigger
  kPriorityLevel : Nat
deriving DecidableEq

/-- The trait `IrqExampleTrait` of the source. -/
def IrqExampleTrait : IrqTrait :=
  { kHandleMode := .NonVectored, kTrigger := .Level, kPriorityLevel := 0b1101 }

/-! ## bamblebee.hpp: the class template `Interrupt` -/

/-- An instantiated `Interrupt< tInterruptSource, Trait >`. The field `source_in_range` is its
`static_assert( tInterruptSource < ECLIC_NUM_INTERRUPTS )`: an instantiation that fails
the assertion does not exist. The identifier type `IRQn_Type` (chip headers) is taken as a
natural number. -/
structure Interrupt (m : EclicMap) where
  tInterruptSource : Nat
  Trait : IrqTrait
  source_in_range : tInterruptSource < m.ECLIC_NUM_INTERRUPTS

namespace Interrupt

variable {m : EclicMap}

/-- The member `kInterruptSource`. -/
def kInterruptSource (d : Interrupt m) : Nat := d.tInterruptSource

/-- The member `kHandleMode`. -/
def kHandleMode (d : Interrupt m) : HandleMode := d.Trait.kHandleMode

/-- The member `kTrigger`. -/
def kTrigger (d : Interrupt m) : Trigger := d.Trait.kTrigger

/-- The member `kPriorityLevel`, a `std::uint8_t`. -/
def kPriorityLevel (d : Interrupt m) : Nat := uint8 d.Trait.kPriorityLevel

/-- The member `kIntAttrMask = static_cast<uint8_t>(kTrigger) | static_cast<uint8_t>(kHandleMode)`. -/
def kIntAttrMask (d : Interrupt m) : Nat :=
  uint8 (d.kTrigger.toNat ||| d.kHandleMode.toNat)

/-- The member `kIntCfgMask = kPriorityLevel << (8 - ECLICINTCTLBITS)`, a `std::uint8_t`. -/
def kIntCfgMask (d : Interrupt m) : Nat :=
  uint8 (d.kPriorityLevel <<< (8 - m.ECLICINTCTLBITS))

/-- The address `intcfg` of `Init`: the control byte of the source. -/
def intcfg (d : Interrupt m) : Nat :=
  uint32 (m.ECLIC_ADDR_BASE + m.ECLIC_INT_CTRL_OFFSET + uint32 d.kInterruptSource * 4)

/-- The address `intattr` of `Init`: the attribute byte of the source. -/
def intattr (d : Interrupt m) : Nat :=
  uint32 (m.ECLIC_ADDR_BASE + m.ECLIC_INT_ATTR_OFFSET + uint32 d.kInterruptSource * 4)

/-- The address `intie` of `Enable` and `Disable`: the enable byte of the source. -/
def intie (d : Interrupt m) : Nat :=
  uint32 (m.ECLIC_ADDR_BASE + m.ECLIC_INT_IE_OFFSET + uint32 d.kInterruptSource * 4)

/-- The function `Interrupt::Init`: store the control byte, then the attribute byte. -/
def Init (d : Interrupt m) (s : Machine) : Machine :=
  (s.store8 d.intcfg d.kIntCfgMask).store8 d.intattr d.kIntAttrMask

/-- The function `Interrupt::Enable`. -/
def Enable (d : Interrupt m) (s : Machine) : Machine :=
  s.store8 d.intie 1

/-- The function `Interrupt::Disable`. -/
def Disable (d : Interrupt m) (s : Machine) : Machine :=
  s.store8 d.intie 0

end Interrupt

/-! ## bamblebee.hpp: the class template `Eclic` -/

namespace Eclic

variable {m : EclicMap}

/-- The function `IsValidTrait`: `false` stands for a failed `static_assert`
`kThresholdLevel <= (1 << group) - 1`. -/
def IsValidTrait (tr : EclicTrait) : Bool :=
  decide (tr.kThresholdLevel ≤ (1 <<< tr.kPriorityLevelGroup.toNat) - 1)

/-- The function `IsValidInterrupt< T, Ts... >`: the fold of `&&` over
`uint32(T::kInterruptSource) != uint32(Ts::kInterruptSource)`. -/
def IsValidInterrupt (T : Interrupt m) (Ts : List (Interrupt m)) : Bool :=
  Ts.all fun U => uint32 T.kInterruptSource != uint32 U.kInterruptSource

/-- The function `IsValidInterruptGroup< T, Ts... >`. -/
def IsValidInterruptGroup (T : Interrupt m) : List (Interrupt m) → Bool
  | [] => true
  | U :: Us => IsValidInterrupt T (U :: Us) && IsValidInterruptGroup U Us

/-- The member `kCfgMask = static_cast<uint8_t>(kPriorityLevelGroup) << 1`, a `std::uint8_t`. -/
def kCfgMask (tr : EclicTrait) : Nat :=
  uint8 (tr.kPriorityLevelGroup.toNat <<< 1)

/-- The member `kMthMask = kThresholdLevel`, a `std::uint8_t`. -/
def kMthMask (tr : EclicTrait) : Nat :=
  uint8 tr.kThresholdLevel

/-- The address of the global config register, `ECLIC_ADDR_BASE + ECLIC_CFG_OFFSET`. -/
def cfg (m : EclicMap) : Nat := uint32 (m.ECLIC_ADDR_BASE + m.ECLIC_CFG_OFFSET)

/-- The address of the global threshold register, `ECLIC_ADDR_BASE + ECLIC_MTH_OFFSET`. -/
def mth (m : EclicMap) : Nat := uint32 (m.ECLIC_ADDR_BASE + m.ECLIC_MTH_OFFSET)

/-- The pointer `base` of `Init`, as a byte address. -/
def base (m : EclicMap) : Nat := uint32 (m.ECLIC_ADDR_BASE + m.ECLIC_INT_IP_OFFSET)

/-- The pointer `upper` of `Init`, as a byte address: `base + ECLIC_NUM_INTERRUPTS*4` is
arithmetic on a `uint32_t` pointer, so it advances by `ECLIC_NUM_INTERRUPTS*4` elements of
4 bytes. -/
def upper (m : EclicMap) : Nat := base m + (m.ECLIC_NUM_INTERRUPTS * 4) * 4

/-- The clearing loop `for (ptr = base; ptr < upper; ptr = ptr + 4) *ptr = 0;` of `Init`.
The pointer has type `volatile uint32_t *`: each store writes a 32-bit word and
`ptr + 4` advances by 4 elements of 4 bytes. -/
def clearLoop (upper ptr : Nat) (s : Machine) : Machine :=
  if ptr < upper then clearLoop upper (ptr + 4 * 4) (s.store32 ptr 0) else s
termination_by upper - ptr
decreasing_by omega

/-- The statements of `Eclic< Trait >::Init< Interrupt... >` that follow its `static_assert`:
clear the config and threshold bytes, run the clearing loop, store `kCfgMask` and `kMthMask`
through `REG32` (chip headers: a `volatile uint32_t` access), then `Init` of each descriptor,
left to right. -/
def InitBody (tr : EclicTrait) (ints : List (Interrupt m)) (s : Machine) : Machine :=
  let s := s.store8 (cfg m) 0
  let s := s.store8 (mth m) 0
  let s := clearLoop (upper m) (base m) s
  let s := s.store32 (cfg m) (kCfgMask tr)
  let s := s.store32 (mth m) (kMthMask tr)
  ints.foldl (fun acc d => d.Init acc) s

/-- The function `Eclic< Trait >::Init< Interrupt... >`. The result is `none` when the build is
rejected: the class-level `static_assert(IsValidTrait())`, the
`static_assert(IsValidInterruptGroup<Interrupt...>())`, or an empty pack (for which
`IsValidInterruptGroup` has no instance). -/
def Init (tr : EclicTrait) (ints : List (Interrupt m)) (s : Machine) : Option Machine :=
  match ints with
  | [] => none
  | T :: Ts =>
    if IsValidTrait tr && IsValidInterruptGroup T Ts then
      some (InitBody tr (T :: Ts) s)
    else none

/-- The function `EnableInterrupts< Interrupt... >`: `Enable` of each descriptor, left to
right. -/
def EnableInterrupts (ints : List (Interrupt m)) (s : Machine) : Machine :=
  ints.foldl (fun acc d => d.Enable acc) s

/-- The function `DisableInterrupts< Interrupt... >`: `Disable` of each descriptor, left to
right. -/
def DisableInterrupts (ints : List (Interrupt m)) (s : Machine) : Machine :=
  ints.foldl (fun acc d => d.Disable acc) s

/-- The pending byte of source `i`: `ECLIC_ADDR_BASE + ECLIC_INT_IP_OFFSET + i * 4`. -/
def intip (m : EclicMap) (i : Nat) : Nat :=
  uint32 (m.ECLIC_ADDR_BASE + m.ECLIC_INT_IP_OFFSET + uint32 i * 4)

/-- The enable byte of source `i`: `ECLIC_ADDR_BASE + ECLIC_INT_IE_OFFSET + i * 4`. -/
def intie (m : EclicMap) (i : Nat) : Nat :=
  uint32 (m.ECLIC_ADDR_BASE + m.ECLIC_INT_IE_OFFSET + uint32 i * 4)

/-- The attribute byte of source `i`: `ECLIC_ADDR_BASE + ECLIC_INT_ATTR_OFFSET + i * 4`. -/
def intattr (m : EclicMap) (i : Nat) : Nat :=
  uint32 (m.ECLIC_ADDR_BASE + m.ECLIC_INT_ATTR_OFFSET + uint32 i * 4)

/-- The control byte of source `i`: `ECLIC_ADDR_BASE + ECLIC_INT_CTRL_OFFSET + i * 4`. -/
def intctl (m : EclicMap) (i : Nat) : Nat :=
  uint32 (m.ECLIC_ADDR_BASE + m.ECLIC_INT_CTRL_OFFSET + uint32 i * 4)

end Eclic

/-! ## riscv.hpp: the CSR access primitive -/

/-- The enumeration `Accessibility`. -/
inductive Accessibility where
  | MRW | MRO | URW | URO
deriving DecidableEq

/-- The CSR file: one 32-bit value per CSR address. -/
abbrev CsrFile := Nat → Nat

/-- An instantiated `AbstractCsr< tAddress, tAccessibility >`. The field `address_in_range` is
its `static_assert( kAddress < 4096 )`. -/
structure AbstractCsr where
  kAddress : Nat
  kAccessibility : Accessibility
  address_in_range : kAddress < 4096

/-- Bitwise complement of a 32-bit word. -/
def not32 (x : Nat) : Nat := 2 ^ 32 - 1 - uint32 x

/-- The instruction `csrrwi x0, csr, uimm`: the CSR receives the zero-extended 5-bit immediate. -/
def csrrwi (csr uimm : Nat) (f : CsrFile) : CsrFile :=
  fun a => if a = csr then uimm % 32 else f a

/-- The instruction `csrw csr, rs`: the CSR receives the register value. -/
def csrw (csr rs : Nat) (f : CsrFile) : CsrFile :=
  fun a => if a = csr then uint32 rs else f a

/-- The instruction `csrr rd, csr`: the value read. -/
def csrr (csr : Nat) (f : CsrFile) : Nat := f csr

/-- The instruction `csrsi csr, uimm`: the bits of the 5-bit immediate are set in the CSR. -/
def csrsi (csr uimm : Nat) (f : CsrFile) : CsrFile :=
  fun a => if a = csr then f a ||| (uimm % 32) else f a

/-- The instruction `csrs csr, rs`: the bits of the register value are set in the CSR. -/
def csrs (csr rs : Nat) (f : CsrFile) : CsrFile :=
  fun a => if a = csr then f a ||| uint32 rs else f a

/-- The instruction `csrci csr, uimm`: the bits of the 5-bit immediate are cleared in the CSR. -/
def csrci (csr uimm : Nat) (f : CsrFile) : CsrFile :=
  fun a => if a = csr then f a &&& not32 (uimm % 32) else f a

/-- The instruction `csrc csr, rs`: the bits of the register value are cleared in the CSR. -/
def csrc (csr rs : Nat) (f : CsrFile) : CsrFile :=
  fun a => if a = csr then f a &&& not32 rs else f a

namespace AbstractCsr

/-- The `static_assert` shared by `Write`, `Set` and `Clear`:
`kAccessibility == MRW || kAccessibility == URW`. -/
def writable (c : AbstractCsr) : Bool :=
  c.kAccessibility == .MRW || c.kAccessibility == .URW

/-- The function `AbstractCsr::Write`: `none` when its `static_assert` fails. The flag
`constant_p` is the value of `__builtin_constant_p(value)`. -/
def Write (c : AbstractCsr) (constant_p : Bool) (value : Nat) (f : CsrFile) : Option CsrFile :=
  if c.writable then
    if constant_p && decide (uint32 value < 32) then
      some (csrrwi c.kAddress (uint32 value) f)
    else
      some (csrw c.kAddress (uint32 value) f)
  else none

/-- The function `AbstractCsr::Read`: it has no `static_assert` of its own. -/
def Read (c : AbstractCsr) (f : CsrFile) : Nat :=
  csrr c.kAddress f

/-- The function `AbstractCsr::Set`: `none` when its `static_assert` fails. -/
def Set (c : AbstractCsr) (constant_p : Bool) (mask : Nat) (f : CsrFile) : Option CsrFile :=
  if c.writable then
    if constant_p && decide (uint32 mask < 32) then
      some (csrsi c.kAddress (uint32 mask) f)
    else
      some (csrs c.kAddress (uint32 mask) f)
  else none

/-- The function `AbstractCsr::Clear`: `none` when its `static_assert` fails. -/
def Clear (c : AbstractCsr) (constant_p : Bool) (mask : Nat) (f : CsrFile) : Option CsrFile :=
  if c.writable then
    if constant_p && decide (uint32 mask < 32) then
      some (csrci c.kAddress (uint32 mask) f)
    else
      some (csrc c.kAddress (uint32 mask) f)
  else none

end AbstractCsr

/-! ## Concrete inputs used in the examples -/

/-- Source 5: level-triggered, non-vectored, priority `0b1101`. -/
def irq5 : Interrupt n200 :=
  { tInterruptSource := 5
    Trait := { kHandleMode := .NonVectored, kTrigger := .Level, kPriorityLevel := 0b1101 }
    source_in_range := by decide }

/-- Source 9: rising-edge, vectored, priority `0b0010`. -/
def irq9 : Interrupt n200 :=
  { tInterruptSource := 9
    Trait := { kHandleMode := .Vectored, kTrigger := .Posedge, kPriorityLevel := 0b0010 }
    source_in_range := by decide }

/-- A register block filled with the byte `0xFF`, no write issued yet. -/
def garbage : Machine :=
  { mem := fun _ => 0xFF, trace := [] }

/-- The attribute-byte layout as the specification words it, for a trigger field of `w` bits:
the `w` lowest bits of the byte are the trigger encoding and the bit directly above them
(bit `w`) is the vectored flag. Stated to be compared with `Interrupt.kIntAttrMask`. -/
def attrLayoutAsWorded (w attr : Nat) (t : Trigger) (h : HandleMode) : Prop :=
  attr % 2 ^ w = t.toNat ∧ attr / 2 ^ w % 2 = h.toNat

/-! ## Replaying bus writes -/

/-- The effect of one bus write on memory: its `width` bytes from `addr` receive the bytes of
`value`, least significant first. -/
def BusWrite.apply (w : BusWrite) (mem : Nat → Nat) : Nat → Nat :=
  fun x => if w.addr ≤ x ∧ x < w.addr + w.width then uint8 (w.value / 256 ^ (x - w.addr))
    else mem x

/-- Issue one bus write: memory is updated and the write is appended to the trace. -/
def Machine.exec (s : Machine) (w : BusWrite) : Machine :=
  { mem := w.apply s.mem, trace := s.trace ++ [w] }

/-- Issue a sequence of bus writes, first to last. -/
def Machine.execs (s : Machine) (ws : List BusWrite) : Machine :=
  ws.foldl Machine.exec s

/-- A byte address is covered by a write of the sequence. -/
def covered (ws : List BusWrite) (x : Nat) : Prop :=
  ∃ w ∈ ws, w.addr ≤ x ∧ x < w.addr + w.width

/-- The two byte writes of `Interrupt::Init`, in program order. -/
def Interrupt.InitWrites {m : EclicMap} (d : Interrupt m) : List BusWrite :=
  [⟨d.intcfg, 1, d.kIntCfgMask⟩, ⟨d.intattr, 1, d.kIntAttrMask⟩]

/-- The word writes of the clearing loop of `Eclic::Init`, in program order: one zero word
at `base + 16 * k` for each `k` below `ECLIC_NUM_INTERRUPTS`. -/
def Eclic.clearWrites (m : EclicMap) : List BusWrite :=
  (List.range m.ECLIC_NUM_INTERRUPTS).map fun k => ⟨Eclic.base m + 16 * k, 4, 0⟩

/-- The write sequence of the body of `Eclic::Init`, segment by segment in program order: the
two zero bytes to the global registers, the clearing writes, the two global values, the
writes of each descriptor in declaration order. Stated to be compared with the trace of
`Eclic.InitBody`. -/
def Eclic.InitWrites {m : EclicMap} (tr : EclicTrait) (ints : List (Interrupt m)) :
    List BusWrite :=
  [⟨Eclic.cfg m, 1, 0⟩, ⟨Eclic.mth m, 1, 0⟩] ++ Eclic.clearWrites m ++
    [⟨Eclic.cfg m, 4, Eclic.kCfgMask tr⟩, ⟨Eclic.mth m, 4, Eclic.kMthMask tr⟩] ++
    ints.flatMap Interrupt.InitWrites

/-- Instantiation of `Interrupt< src, trait >`: `none` when the class-level
`static_assert( tInterruptSource < ECLIC_NUM_INTERRUPTS )` fails. Neither the assertion nor
any other part of the class looks at `trait.kPriorityLevel`. -/
def Interrupt.instantiate (m : EclicMap) (src : Nat) (trait : IrqTrait) :
    Option (Interrupt m) :=
  if h : src < m.ECLIC_NUM_INTERRUPTS then
    some { tInterruptSource := src, Trait := trait, source_in_range := h }
  else none

/-! ## cortex.cpp: the tick counter -/

/-- The global `volatile std::uint32_t systime`. -/
structure TickState where
  systime : Nat
deriving DecidableEq

/-- The initial value `systime = 0u`. -/
def TickState.initial : TickState := { systime := 0 }

/-- The function `GetTick`: the value returned and the state after the call. -/
def GetTick (s : TickState) : Nat × TickState := (s.systime, s)

/-- The function `IncTick`: `systime++` on a `std::uint32_t`. -/
def IncTick (s : TickState) : TickState := { systime := uint32 (s.systime + 1) }

/-- The function `ResetTick`: `systime = 0u`. -/
def ResetTick (_s : TickState) : TickState := { systime := 0 }

/-! ## Basic facts about the memory model -/

@[simp]
theorem store8_mem (s : Machine) (a v x : Nat) :
    (s.store8 a v).mem x = if x = a then uint8 v else s.mem x := rfl

@[simp]
theorem store8_trace (s : Machine) (a v : Nat) :
    (s.store8 a v).trace = s.trace ++ [⟨a, 1, uint8 v⟩] := rfl

@[simp]
theorem store32_mem (s : Machine) (a v x : Nat) :
    (s.store32 a v).mem x =
      if a ≤ x ∧ x < a + 4 then uint8 (uint32 v / 256 ^ (x - a)) else s.mem x := rfl

@[simp]
theorem store32_trace (s : Machine) (a v : Nat) :
    (s.store32 a v).trace = s.trace ++ [⟨a, 4, uint32 v⟩] := rfl

theorem uint32_of_lt {x : Nat} (h : x < 2 ^ 32) : uint32 x = x :=
  Nat.mod_eq_of_lt h

theorem uint8_of_lt {x : Nat} (h : x < 256) : uint8 x = x :=
  Nat.mod_eq_of_lt h

/-- What the clearing loop leaves in memory: the words at `ptr`, `ptr + 16`, `ptr + 32`, ...
below `upper` are zero, every other byte is as before. -/
theorem Eclic.clearLoop_mem (upper ptr : Nat) (s : Machine) (a : Nat) :
    (Eclic.clearLoop upper ptr s).mem a =
      if ptr ≤ a ∧ (a - ptr) % 16 < 4 ∧ a - (a - ptr) % 16 < upper then 0 else s.mem a := by
  induction ptr, s using Eclic.clearLoop.induct upper with
  | case1 ptr s h ih =>
    rw [Eclic.clearLoop, if_pos h, ih]
    simp only [store32_mem, uint32, uint8]
    by_cases h1 : ptr ≤ a ∧ a < ptr + 4
    · have e1 : (a - ptr) % 16 = a - ptr := Nat.mod_eq_of_lt (by omega)
      rw [if_neg (by omega), if_pos h1, if_pos (by omega)]
      simp
    · rw [if_neg h1]
      by_cases h2 : ptr + 4 * 4 ≤ a ∧ (a - (ptr + 4 * 4)) % 16 < 4 ∧
          a - (a - (ptr + 4 * 4)) % 16 < upper
      · rw [if_pos h2, if_pos (by omega)]
      · rw [if_neg h2, if_neg (by omega)]
  | case2 ptr s h =>
    rw [Eclic.clearLoop, if_neg h, if_neg (by omega)]

/-! ## Addresses on a well-formed register map -/

theorem Eclic.intip_eq {m : EclicMap} (hm : m.WF) {i : Nat} (hi : i < m.ECLIC_NUM_INTERRUPTS) :
    Eclic.intip m i = m.ECLIC_ADDR_BASE + m.ECLIC_INT_IP_OFFSET + 4 * i := by
  obtain ⟨_, _, _, _, _, h6, _⟩ := hm
  simp only [Eclic.intip, uint32]
  omega

theorem Eclic.intie_eq {m : EclicMap} (hm : m.WF) {i : Nat} (hi : i < m.ECLIC_NUM_INTERRUPTS) :
    Eclic.intie m i = m.ECLIC_ADDR_BASE + m.ECLIC_INT_IP_OFFSET + 4 * i + 1 := by
  obtain ⟨_, _, h3, _, _, h6, _⟩ := hm
  simp only [Eclic.intie, uint32]
  omega

theorem Eclic.intattr_eq {m : EclicMap} (hm : m.WF) {i : Nat} (hi : i < m.ECLIC_NUM_INTERRUPTS) :
    Eclic.intattr m i = m.ECLIC_ADDR_BASE + m.ECLIC_INT_IP_OFFSET + 4 * i + 2 := by
  obtain ⟨_, _, _, h4, _, h6, _⟩ := hm
  simp only [Eclic.intattr, uint32]
  omega

theorem Eclic.intctl_eq {m : EclicMap} (hm : m.WF) {i : Nat} (hi : i < m.ECLIC_NUM_INTERRUPTS) :
    Eclic.intctl m i = m.ECLIC_ADDR_BASE + m.ECLIC_INT_IP_OFFSET + 4 * i + 3 := by
  obtain ⟨_, _, _, _, h5, h6, _⟩ := hm
  simp only [Eclic.intctl, uint32]
  omega

theorem Interrupt.intie_addr {m : EclicMap} (hm : m.WF) (d : Interrupt m) :
    d.intie = m.ECLIC_ADDR_BASE + m.ECLIC_INT_IP_OFFSET + 4 * d.kInterruptSource + 1 :=
  Eclic.intie_eq hm d.source_in_range

theorem Interrupt.intattr_addr {m : EclicMap} (hm : m.WF) (d : Interrupt m) :
    d.intattr = m.ECLIC_ADDR_BASE + m.ECLIC_INT_IP_OFFSET + 4 * d.kInterruptSource + 2 :=
  Eclic.intattr_eq hm d.source_in_range

theorem Interrupt.intcfg_addr {m : EclicMap} (hm : m.WF) (d : Interrupt m) :
    d.intcfg = m.ECLIC_ADDR_BASE + m.ECLIC_INT_IP_OFFSET + 4 * d.kInterruptSource + 3 :=
  Eclic.intctl_eq hm d.source_in_range

theorem Eclic.cfg_eq {m : EclicMap} (hm : m.WF) :
    Eclic.cfg m = m.ECLIC_ADDR_BASE + m.ECLIC_CFG_OFFSET := by
  obtain ⟨_, _, _, _, _, h6, _⟩ := hm
  simp only [Eclic.cfg, uint32]
  omega

theorem Eclic.mth_eq {m : EclicMap} (hm : m.WF) :
    Eclic.mth m = m.ECLIC_ADDR_BASE + m.ECLIC_MTH_OFFSET := by
  obtain ⟨_, _, _, _, _, h6, _⟩ := hm
  simp only [Eclic.mth, uint32]
  omega

theorem Eclic.base_eq {m : EclicMap} (hm : m.WF) :
    Eclic.base m = m.ECLIC_ADDR_BASE + m.ECLIC_INT_IP_OFFSET := by
  obtain ⟨_, _, _, _, _, h6, _⟩ := hm
  simp only [Eclic.base, uint32]
  omega

theorem Eclic.upper_eq {m : EclicMap} (hm : m.WF) :
    Eclic.upper m = m.ECLIC_ADDR_BASE + m.ECLIC_INT_IP_OFFSET + 16 * m.ECLIC_NUM_INTERRUPTS := by
  rw [Eclic.upper, Eclic.base_eq hm]
  omega

theorem uint8_uint8 (x : Nat) : uint8 (uint8 x) = uint8 x := by
  simp [uint8]

theorem Interrupt.uint8_kIntCfgMask {m : EclicMap} (d : Interrupt m) :
    uint8 d.kIntCfgMask = d.kIntCfgMask := uint8_uint8 _

theorem Interrupt.uint8_kIntAttrMask {m : EclicMap} (d : Interrupt m) :
    uint8 d.kIntAttrMask = d.kIntAttrMask := uint8_uint8 _

/-- A byte of source `i` with `i % 4 ≠ 0` is in none of the words at stride 16 from `b`. -/
theorem not_word_of_stride {b i a : Nat} (h4 : i % 4 ≠ 0) (h1 : b + 4 * i ≤ a)
    (h2 : a < b + 4 * i + 4) : ¬ (a - b) % 16 < 4 := by
  omega

/-! ## Effect of the descriptor operations and of the body of `Init` on memory -/

theorem Interrupt.Init_mem {m : EclicMap} (d : Interrupt m) (s : Machine) (a : Nat) :
    (d.Init s).mem a =
      if a = d.intattr then d.kIntAttrMask else if a = d.intcfg then d.kIntCfgMask
      else s.mem a := by
  simp only [Interrupt.Init, store8_mem, Interrupt.uint8_kIntCfgMask,
    Interrupt.uint8_kIntAttrMask]

theorem Eclic.foldl_Init_mem_of_ne {m : EclicMap} (ds : List (Interrupt m)) (s : Machine)
    (a : Nat) (h : ∀ d ∈ ds, a ≠ d.intcfg ∧ a ≠ d.intattr) :
    (ds.foldl (fun acc d => d.Init acc) s).mem a = s.mem a := by
  induction ds generalizing s with
  | nil => rfl
  | cons d ds ih =>
    rw [List.foldl_cons, ih _ (fun e he => h e (List.mem_cons_of_mem _ he))]
    have hd := h d (List.mem_cons_self _ _)
    rw [Interrupt.Init_mem, if_neg hd.2, if_neg hd.1]

theorem Eclic.foldl_Init_mem_slot {m : EclicMap} (hm : m.WF) (ds : List (Interrupt m))
    (hnd : (ds.map Interrupt.kInterruptSource).Nodup) (s : Machine) (d : Interrupt m)
    (hd : d ∈ ds) :
    (ds.foldl (fun acc d => d.Init acc) s).mem d.intcfg = d.kIntCfgMask ∧
    (ds.foldl (fun acc d => d.Init acc) s).mem d.intattr = d.kIntAttrMask := by
  induction ds generalizing s with
  | nil => simp at hd
  | cons e ds ih =>
    rw [List.map_cons, List.nodup_cons] at hnd
    rw [List.foldl_cons]
    by_cases hmem : d ∈ ds
    · exact ih hnd.2 _ hmem
    · have hde : d = e := by
        rcases List.mem_cons.1 hd with h | h
        · exact h
        · exact absurd h hmem
      subst hde
      have hne : ∀ x ∈ ds, x.kInterruptSource ≠ d.kInterruptSource := by
        intro x hx e
        exact hnd.1 (by rw [← e]; exact List.mem_map_of_mem _ hx)
      have hcfg := Interrupt.intcfg_addr hm d
      have hattr := Interrupt.intattr_addr hm d
      constructor
      · rw [Eclic.foldl_Init_mem_of_ne, Interrupt.Init_mem, if_neg (by omega), if_pos rfl]
        intro x hx
        have := hne x hx
        rw [Interrupt.intcfg_addr hm x, Interrupt.intattr_addr hm x]
        omega
      · rw [Eclic.foldl_Init_mem_of_ne, Interrupt.Init_mem, if_pos rfl]
        intro x hx
        have := hne x hx
        rw [Interrupt.intcfg_addr hm x, Interrupt.intattr_addr hm x]
        omega

/-- Memory after the body of `Init` at an address that is no declared descriptor's control or
attribute byte. -/
theorem Eclic.InitBody_mem_of_ne {m : EclicMap} (tr : EclicTrait) (ds : List (Interrupt m))
    (s : Machine) (a : Nat) (h : ∀ d ∈ ds, a ≠ d.intcfg ∧ a ≠ d.intattr) :
    (Eclic.InitBody tr ds s).mem a =
      if Eclic.mth m ≤ a ∧ a < Eclic.mth m + 4 then
        uint8 (uint32 (Eclic.kMthMask tr) / 256 ^ (a - Eclic.mth m))
      else if Eclic.cfg m ≤ a ∧ a < Eclic.cfg m + 4 then
        uint8 (uint32 (Eclic.kCfgMask tr) / 256 ^ (a - Eclic.cfg m))
      else if Eclic.base m ≤ a ∧ (a - Eclic.base m) % 16 < 4 ∧
          a - (a - Eclic.base m) % 16 < Eclic.upper m then 0
      else if a = Eclic.mth m then 0
      else if a = Eclic.cfg m then 0
      else s.mem a := by
  rw [Eclic.InitBody, Eclic.foldl_Init_mem_of_ne _ _ _ h]
  simp only [store32_mem, Eclic.clearLoop_mem, store8_mem]
  rfl

theorem Eclic.InitBody_mem_slot {m : EclicMap} (hm : m.WF) (tr : EclicTrait)
    (ds : List (Interrupt m)) (hnd : (ds.map Interrupt.kInterruptSource).Nodup) (s : Machine)
    (d : Interrupt m) (hd : d ∈ ds) :
    (Eclic.InitBody tr ds s).mem d.intcfg = d.kIntCfgMask ∧
    (Eclic.InitBody tr ds s).mem d.intattr = d.kIntAttrMask :=
  Eclic.foldl_Init_mem_slot hm ds hnd _ d hd

theorem Eclic.Init_eq_some {m : EclicMap} (tr : EclicTrait) (T : Interrupt m)
    (Ts : List (Interrupt m)) (s : Machine) (hv : Eclic.IsValidTrait tr = true)
    (hg : Eclic.IsValidInterruptGroup T Ts = true) :
    Eclic.Init tr (T :: Ts) s = some (Eclic.InitBody tr (T :: Ts) s) := by
  simp [Eclic.Init, hv, hg]

/-- A byte of the slot of source `i`, `i % 4 ≠ 0`, that is no declared descriptor's control or
attribute byte keeps its value through the body of `Init`. -/
theorem Eclic.InitBody_mem_stale_byte {m : EclicMap} (hm : m.WF) (tr : EclicTrait)
    (ds : List (Interrupt m)) (s : Machine) (i : Nat) (h4 : i % 4 ≠ 0) (a : Nat)
    (ha : ∀ d ∈ ds, a ≠ d.intcfg ∧ a ≠ d.intattr)
    (h1 : m.ECLIC_ADDR_BASE + m.ECLIC_INT_IP_OFFSET + 4 * i ≤ a)
    (h2 : a < m.ECLIC_ADDR_BASE + m.ECLIC_INT_IP_OFFSET + 4 * i + 4) :
    (Eclic.InitBody tr ds s).mem a = s.mem a := by
  rw [Eclic.InitBody_mem_of_ne tr ds s a ha, Eclic.cfg_eq hm, Eclic.mth_eq hm,
    Eclic.base_eq hm, Eclic.upper_eq hm]
  obtain ⟨w1, w2, -, -, -, -, -⟩ := hm
  have n1 : ¬ (m.ECLIC_ADDR_BASE + m.ECLIC_MTH_OFFSET ≤ a ∧
      a < m.ECLIC_ADDR_BASE + m.ECLIC_MTH_OFFSET + 4) := by omega
  have n2 : ¬ (m.ECLIC_ADDR_BASE + m.ECLIC_CFG_OFFSET ≤ a ∧
      a < m.ECLIC_ADDR_BASE + m.ECLIC_CFG_OFFSET + 4) := by omega
  have n4 : ¬ a = m.ECLIC_ADDR_BASE + m.ECLIC_MTH_OFFSET := by omega
  have n5 : ¬ a = m.ECLIC_ADDR_BASE + m.ECLIC_CFG_OFFSET := by omega
  rw [if_neg n1, if_neg n2, if_neg (fun h => not_word_of_stride h4 h1 h2 h.2.1), if_neg n4,
    if_neg n5]

/-- The pending and enable bytes of a source are no descriptor's control or attribute byte. -/
theorem Eclic.low_bytes_ne_slots {m : EclicMap} (hm : m.WF) (ds : List (Interrupt m))
    (i a : Nat) (h1 : m.ECLIC_ADDR_BASE + m.ECLIC_INT_IP_OFFSET + 4 * i ≤ a)
    (h2 : a < m.ECLIC_ADDR_BASE + m.ECLIC_INT_IP_OFFSET + 4 * i + 2) :
    ∀ d ∈ ds, a ≠ d.intcfg ∧ a ≠ d.intattr := by
  intro d _
  rw [Interrupt.intcfg_addr hm d, Interrupt.intattr_addr hm d]
  clear hm
  omega

/-- No byte of the slot of source `i` is the control or attribute byte of a descriptor of
another source. -/
theorem Eclic.other_bytes_ne_slots {m : EclicMap} (hm : m.WF) (ds : List (Interrupt m))
    (i a : Nat) (hnot : i ∉ ds.map Interrupt.kInterruptSource)
    (h1 : m.ECLIC_ADDR_BASE + m.ECLIC_INT_IP_OFFSET + 4 * i ≤ a)
    (h2 : a < m.ECLIC_ADDR_BASE + m.ECLIC_INT_IP_OFFSET + 4 * i + 4) :
    ∀ d ∈ ds, a ≠ d.intcfg ∧ a ≠ d.intattr := by
  intro d hd
  have hne : d.kInterruptSource ≠ i := by
    intro e
    exact hnot (by rw [← e]; exact List.mem_map_of_mem _ hd)
  rw [Interrupt.intcfg_addr hm d, Interrupt.intattr_addr hm d]
  clear hm hnot hd
  omega

/-- The clearing loop reaches only every fourth source: a source `i` below the line count with
`i % 4 ≠ 0` keeps its pending and enable bytes through the body of `Init`, and keeps its
attribute and control bytes too when it is not declared. -/
theorem Eclic.InitBody_mem_stale {m : EclicMap} (hm : m.WF) (tr : EclicTrait)
    (ds : List (Interrupt m)) (s : Machine) (i : Nat) (hi : i < m.ECLIC_NUM_INTERRUPTS)
    (h4 : i % 4 ≠ 0) :
    (Eclic.InitBody tr ds s).mem (Eclic.intip m i) = s.mem (Eclic.intip m i) ∧
    (Eclic.InitBody tr ds s).mem (Eclic.intie m i) = s.mem (Eclic.intie m i) ∧
    (i ∉ ds.map Interrupt.kInterruptSource →
      (Eclic.InitBody tr ds s).mem (Eclic.intattr m i) = s.mem (Eclic.intattr m i) ∧
      (Eclic.InitBody tr ds s).mem (Eclic.intctl m i) = s.mem (Eclic.intctl m i)) := by
  rw [Eclic.intip_eq hm hi, Eclic.intie_eq hm hi, Eclic.intattr_eq hm hi, Eclic.intctl_eq hm hi]
  refine ⟨?_, ?_, fun hnot => ⟨?_, ?_⟩⟩
  · exact Eclic.InitBody_mem_stale_byte hm tr ds s i h4 _
      (Eclic.low_bytes_ne_slots hm ds i _ (Nat.le_refl _) (by omega)) (Nat.le_refl _) (by omega)
  · exact Eclic.InitBody_mem_stale_byte hm tr ds s i h4 _
      (Eclic.low_bytes_ne_slots hm ds i _ (by omega) (by omega)) (by omega) (by omega)
  · exact Eclic.InitBody_mem_stale_byte hm tr ds s i h4 _
      (Eclic.other_bytes_ne_slots hm ds i _ hnot (by omega) (by omega)) (by omega) (by omega)
  · exact Eclic.InitBody_mem_stale_byte hm tr ds s i h4 _
      (Eclic.other_bytes_ne_slots hm ds i _ hnot (by omega) (by omega)) (by omega) (by omega)

/-! ## Validation -/

theorem Eclic.IsValidTrait_iff (tr : EclicTrait) :
    Eclic.IsValidTrait tr = true ↔ tr.kThresholdLevel ≤ 2 ^ tr.kPriorityLevelGroup.toNat - 1 := by
  simp [Eclic.IsValidTrait, Nat.shiftLeft_eq]

theorem Eclic.IsValidInterrupt_iff {m : EclicMap} (hN : m.ECLIC_NUM_INTERRUPTS ≤ 2 ^ 32)
    (T : Interrupt m) (Ts : List (Interrupt m)) :
    Eclic.IsValidInterrupt T Ts = true ↔
      T.kInterruptSource ∉ Ts.map Interrupt.kInterruptSource := by
  have hT : uint32 T.kInterruptSource = T.kInterruptSource :=
    uint32_of_lt (lt_of_lt_of_le T.source_in_range hN)
  simp only [Eclic.IsValidInterrupt, List.all_eq_true, bne_iff_ne, ne_eq, List.mem_map,
    not_exists, not_and, hT]
  constructor
  · intro h U hU e
    have hU32 : uint32 U.kInterruptSource = U.kInterruptSource :=
      uint32_of_lt (lt_of_lt_of_le U.source_in_range hN)
    exact h U hU (by rw [hU32, e])
  · intro h U hU e
    have hU32 : uint32 U.kInterruptSource = U.kInterruptSource :=
      uint32_of_lt (lt_of_lt_of_le U.source_in_range hN)
    exact h U hU (by rw [← hU32, e])

theorem Eclic.IsValidInterruptGroup_iff {m : EclicMap} (hN : m.ECLIC_NUM_INTERRUPTS ≤ 2 ^ 32)
    (T : Interrupt m) (Ts : List (Interrupt m)) :
    Eclic.IsValidInterruptGroup T Ts = true ↔
      ((T :: Ts).map Interrupt.kInterruptSource).Nodup := by
  induction Ts generalizing T with
  | nil => simp [Eclic.IsValidInterruptGroup]
  | cons U Us ih =>
    rw [Eclic.IsValidInterruptGroup, Bool.and_eq_true, Eclic.IsValidInterrupt_iff hN, ih U]
    simp only [List.map_cons, List.nodup_cons]

/-- Claim C2. For every non-empty pack of descriptors `T, Ts...` (identifiers are values of a
32-bit type), `IsValidInterruptGroup` returns true exactly when the identifiers are pairwise
distinct; when two positions `i < j` of the pack carry the same identifier it returns
false, wherever the positions are. -/
theorem Eclic.IsValidInterruptGroup_true_iff_pairwise_distinct {m : EclicMap}
    (hN : m.ECLIC_NUM_INTERRUPTS ≤ 2 ^ 32) (T : Interrupt m) (Ts : List (Interrupt m)) :
    (Eclic.IsValidInterruptGroup T Ts = true ↔
      ((T :: Ts).map Interrupt.kInterruptSource).Pairwise (fun a b => a ≠ b)) ∧
    (∀ i j : Fin (T :: Ts).length, i < j →
      ((T :: Ts).get i).kInterruptSource = ((T :: Ts).get j).kInterruptSource →
        Eclic.IsValidInterruptGroup T Ts = false) := by
  have key := Eclic.IsValidInterruptGroup_iff hN T Ts
  refine ⟨key, ?_⟩
  intro i j hij e
  rw [← Bool.not_eq_true, key]
  intro hnd
  have hi : i.val < ((T :: Ts).map Interrupt.kInterruptSource).length := by
    rw [List.length_map]; exact i.isLt
  have hj : j.val < ((T :: Ts).map Interrupt.kInterruptSource).length := by
    rw [List.length_map]; exact j.isLt
  have inj := List.nodup_iff_injective_get.1 hnd
  have hfin := @inj ⟨i.val, hi⟩ ⟨j.val, hj⟩ (by
    rw [List.get_eq_getElem, List.get_eq_getElem, List.getElem_map, List.getElem_map]
    exact e)
  exact absurd (Fin.mk.inj hfin) (Nat.ne_of_lt hij)

/-- Claim C2, instance: `n200` has a 32-bit line count; the pack `irq5, irq9` is accepted and
the pack `irq5, irq9, irq5` (first and last share identifier 5) is rejected. -/
theorem Eclic.IsValidInterruptGroup_true_iff_pairwise_distinct_witness :
    n200.ECLIC_NUM_INTERRUPTS ≤ 2 ^ 32 ∧
    (Eclic.IsValidInterruptGroup irq5 [irq9] = true ↔
      (([irq5, irq9] : List (Interrupt n200)).map Interrupt.kInterruptSource).Pairwise
        (fun a b => a ≠ b)) ∧
    Eclic.IsValidInterruptGroup irq5 [irq9, irq5] = false :=
  ⟨by decide,
   (Eclic.IsValidInterruptGroup_true_iff_pairwise_distinct (by decide) irq5 [irq9]).1,
   (Eclic.IsValidInterruptGroup_true_iff_pairwise_distinct (by decide) irq5 [irq9, irq5]).2
      ⟨0, by decide⟩ ⟨2, by decide⟩ (by decide) rfl⟩

/-- Claim C4. For every priority group `g` (one of the five enumerators, values 0..4) and every
threshold `t`, `IsValidTrait` accepts exactly when `t ≤ 2^g - 1`; the boundary value
`t = 2^g - 1` is accepted and `t = 2^g` is rejected. -/
theorem Eclic.IsValidTrait_accepts_iff_threshold_le (g : PriorityLevelGroup) (t : Nat) :
    (Eclic.IsValidTrait ⟨g, t⟩ = true ↔ t ≤ 2 ^ g.toNat - 1) ∧
    g.toNat ≤ 4 ∧
    Eclic.IsValidTrait ⟨g, 2 ^ g.toNat - 1⟩ = true ∧
    Eclic.IsValidTrait ⟨g, 2 ^ g.toNat⟩ = false := by
  refine ⟨Eclic.IsValidTrait_iff ⟨g, t⟩, ?_, ?_, ?_⟩
  · cases g <;> decide
  · cases g <;> decide
  · cases g <;> decide

/-- Claim C3. A configuration that fails validation (two descriptors of the pack share an
identifier, or the threshold exceeds `2^group - 1`) is rejected by `Init` from every register
state: no successor state is produced, so the machine (memory and write trace) after the
attempt is the machine before it. -/
theorem Eclic.Init_rejects_invalid_configuration {m : EclicMap}
    (hN : m.ECLIC_NUM_INTERRUPTS ≤ 2 ^ 32) (tr : EclicTrait) (T : Interrupt m)
    (Ts : List (Interrupt m)) (s : Machine)
    (h : ¬ ((T :: Ts).map Interrupt.kInterruptSource).Nodup ∨
      2 ^ tr.kPriorityLevelGroup.toNat - 1 < tr.kThresholdLevel) :
    Eclic.Init tr (T :: Ts) s = none ∧
    ((Eclic.Init tr (T :: Ts) s).getD s).mem = s.mem ∧
    ((Eclic.Init tr (T :: Ts) s).getD s).trace = s.trace := by
  have hnone : Eclic.Init tr (T :: Ts) s = none := by
    have hv : (Eclic.IsValidTrait tr && Eclic.IsValidInterruptGroup T Ts) = false := by
      rcases h with h | h
      · have : Eclic.IsValidInterruptGroup T Ts = false := by
          rw [← Bool.not_eq_true, Eclic.IsValidInterruptGroup_iff hN]; exact h
        simp [this]
      · have : Eclic.IsValidTrait tr = false := by
          rw [← Bool.not_eq_true, Eclic.IsValidTrait_iff]; omega
        simp [this]
    simp [Eclic.Init, hv]
  rw [hnone]
  exact ⟨rfl, rfl, rfl⟩

/-- Claim C3, instance: on `n200`, the pack `irq5, irq5` (duplicate identifier) with the
example trait is rejected from the garbage-filled register block. -/
theorem Eclic.Init_rejects_invalid_configuration_witness :
    n200.ECLIC_NUM_INTERRUPTS ≤ 2 ^ 32 ∧
    ¬ (([irq5, irq5] : List (Interrupt n200)).map Interrupt.kInterruptSource).Nodup ∧
    Eclic.Init EclicExampleTrait [irq5, irq5] garbage = none :=
  ⟨by decide, by decide,
   (Eclic.Init_rejects_invalid_configuration (by decide) EclicExampleTrait irq5 [irq5] garbage
      (Or.inl (by decide))).1⟩

/-! ## The controller's `Init` -/

/-- Claim C1, evaluated on the code. On the `n200` map, `Init` of the example trait with the
valid pack `irq5, irq9` from a register block filled with `0xFF` returns a state in which
source 1 (below the line count, not declared) still holds `0xFF` in its pending, enable,
attribute and control bytes: the clearing loop steps a `uint32_t` pointer by 4 elements, that is
16 bytes, and so reaches only the sources 0, 4, 8, ... -/
theorem Eclic.Init_leaves_source_1_uncleared :
    n200.WF ∧ 1 < n200.ECLIC_NUM_INTERRUPTS ∧
    1 ∉ ([irq5, irq9] : List (Interrupt n200)).map Interrupt.kInterruptSource ∧
    ∃ s, Eclic.Init EclicExampleTrait [irq5, irq9] garbage = some s ∧
      s.mem (Eclic.intip n200 1) = 0xFF ∧ s.mem (Eclic.intie n200 1) = 0xFF ∧
      s.mem (Eclic.intattr n200 1) = 0xFF ∧ s.mem (Eclic.intctl n200 1) = 0xFF := by
  have hm : n200.WF := by decide
  have hnot : 1 ∉ ([irq5, irq9] : List (Interrupt n200)).map Interrupt.kInterruptSource := by
    decide
  refine ⟨hm, by decide, hnot, _,
    Eclic.Init_eq_some EclicExampleTrait irq5 [irq9] garbage (by decide) (by decide), ?_⟩
  have h := Eclic.InitBody_mem_stale hm EclicExampleTrait [irq5, irq9] garbage 1 (by decide)
    (by decide)
  exact ⟨h.1, h.2.1, (h.2.2 hnot).1, (h.2.2 hnot).2⟩

theorem PriorityLevelGroup.toNat_le (g : PriorityLevelGroup) : g.toNat ≤ 4 := by
  cases g <;> decide

theorem Eclic.kCfgMask_eq (tr : EclicTrait) :
    Eclic.kCfgMask tr = tr.kPriorityLevelGroup.toNat <<< 1 := by
  cases tr with
  | mk g t => cases g <;> rfl

theorem Eclic.kMthMask_eq {tr : EclicTrait}
    (ht : tr.kThresholdLevel ≤ 2 ^ tr.kPriorityLevelGroup.toNat - 1) :
    Eclic.kMthMask tr = tr.kThresholdLevel := by
  have h4 : tr.kPriorityLevelGroup.toNat ≤ 4 := PriorityLevelGroup.toNat_le _
  have hp : 2 ^ tr.kPriorityLevelGroup.toNat ≤ 2 ^ 4 := Nat.pow_le_pow_right (by decide) h4
  apply uint8_of_lt
  omega

theorem Interrupt.kIntAttrMask_eq {m : EclicMap} (d : Interrupt m) :
    d.kIntAttrMask = d.kTrigger.toNat ||| d.kHandleMode.toNat := by
  obtain ⟨src, ⟨hmode, trig, p⟩, h⟩ := d
  cases hmode <;> cases trig <;>
    simp [Interrupt.kIntAttrMask, Interrupt.kTrigger, Interrupt.kHandleMode, Trigger.toNat,
      HandleMode.toNat, uint8]

theorem Interrupt.kIntCfgMask_eq {m : EclicMap} (d : Interrupt m)
    (hb : m.ECLICINTCTLBITS ≤ 8) (hp : d.Trait.kPriorityLevel < 2 ^ m.ECLICINTCTLBITS) :
    d.kIntCfgMask = d.Trait.kPriorityLevel <<< (8 - m.ECLICINTCTLBITS) := by
  have h256 : d.Trait.kPriorityLevel * 2 ^ (8 - m.ECLICINTCTLBITS) < 256 := by
    calc d.Trait.kPriorityLevel * 2 ^ (8 - m.ECLICINTCTLBITS)
        < 2 ^ m.ECLICINTCTLBITS * 2 ^ (8 - m.ECLICINTCTLBITS) :=
          Nat.mul_lt_mul_of_pos_right hp (Nat.two_pow_pos _)
      _ = 2 ^ 8 := by rw [← Nat.pow_add]; congr 1; omega
      _ = 256 := by norm_num
  have hlt : d.Trait.kPriorityLevel < 256 :=
    lt_of_le_of_lt (Nat.le_mul_of_pos_right _ (Nat.two_pow_pos _)) h256
  rw [Interrupt.kIntCfgMask, Interrupt.kPriorityLevel, uint8_of_lt hlt, Nat.shiftLeft_eq,
    uint8_of_lt h256]

theorem uint32_uint8 (x : Nat) : uint32 (uint8 x) = uint8 x := by
  have h : x % 2 ^ 8 < 2 ^ 8 := Nat.mod_lt _ (by decide)
  exact uint32_of_lt (lt_trans h (by decide))

/-- The global registers are no descriptor's control or attribute byte. -/
theorem Eclic.global_ne_slots {m : EclicMap} (hm : m.WF) (ds : List (Interrupt m)) (a : Nat)
    (h : a < m.ECLIC_ADDR_BASE + m.ECLIC_INT_IP_OFFSET) :
    ∀ d ∈ ds, a ≠ d.intcfg ∧ a ≠ d.intattr := by
  intro d _
  rw [Interrupt.intcfg_addr hm d, Interrupt.intattr_addr hm d]
  clear hm
  omega

/-- After the body of `Init` the global config byte holds `kCfgMask`. -/
theorem Eclic.InitBody_mem_cfg {m : EclicMap} (hm : m.WF) (tr : EclicTrait)
    (ds : List (Interrupt m)) (s : Machine) :
    (Eclic.InitBody tr ds s).mem (Eclic.cfg m) = Eclic.kCfgMask tr := by
  have hlt : Eclic.cfg m < Eclic.mth m := by
    rw [Eclic.cfg_eq hm, Eclic.mth_eq hm]
    have := hm.1
    omega
  have hne : ∀ d ∈ ds, Eclic.cfg m ≠ d.intcfg ∧ Eclic.cfg m ≠ d.intattr := by
    apply Eclic.global_ne_slots hm
    rw [Eclic.cfg_eq hm]
    have h1 := hm.1
    have h2 := hm.2.1
    omega
  rw [Eclic.InitBody_mem_of_ne tr ds s _ hne, if_neg (by omega), if_pos (by omega)]
  rw [Nat.sub_self, pow_zero, Nat.div_one, Eclic.kCfgMask, uint32_uint8, uint8_uint8]

/-- After the body of `Init` the global threshold byte holds `kMthMask`. -/
theorem Eclic.InitBody_mem_mth {m : EclicMap} (hm : m.WF) (tr : EclicTrait)
    (ds : List (Interrupt m)) (s : Machine) :
    (Eclic.InitBody tr ds s).mem (Eclic.mth m) = Eclic.kMthMask tr := by
  have hne : ∀ d ∈ ds, Eclic.mth m ≠ d.intcfg ∧ Eclic.mth m ≠ d.intattr := by
    apply Eclic.global_ne_slots hm
    rw [Eclic.mth_eq hm]
    have h2 := hm.2.1
    omega
  rw [Eclic.InitBody_mem_of_ne tr ds s _ hne, if_pos (by omega)]
  rw [Nat.sub_self, pow_zero, Nat.div_one, Eclic.kMthMask, uint32_uint8, uint8_uint8]

/-- Claim C5. For every valid configuration (threshold `t ≤ 2^g - 1`, pack with pairwise
distinct identifiers, all below `ECLIC_NUM_INTERRUPTS` by construction, priorities below 16,
on a well-formed map with at least 4 usable control bits) and every initial register state,
`Init` returns a state in which the global config byte is `g << 1`, the global threshold byte
is `t`, and every declared descriptor has `priority << (8 - ECLICINTCTLBITS)` in its control
byte and `trigger | handle mode` in its attribute byte. -/
theorem Eclic.Init_programs_globals_and_declared_slots {m : EclicMap} (hm : m.WF)
    (hb : 4 ≤ m.ECLICINTCTLBITS) (tr : EclicTrait) (T : Interrupt m)
    (Ts : List (Interrupt m)) (s : Machine)
    (ht : tr.kThresholdLevel ≤ 2 ^ tr.kPriorityLevelGroup.toNat - 1)
    (hnd : ((T :: Ts).map Interrupt.kInterruptSource).Pairwise (fun a b => a ≠ b))
    (hp : ∀ d ∈ T :: Ts, d.Trait.kPriorityLevel < 16) :
    ∃ s', Eclic.Init tr (T :: Ts) s = some s' ∧
      s'.mem (Eclic.cfg m) = tr.kPriorityLevelGroup.toNat <<< 1 ∧
      s'.mem (Eclic.mth m) = tr.kThresholdLevel ∧
      ∀ d ∈ T :: Ts,
        s'.mem (Eclic.intctl m d.kInterruptSource) =
          d.Trait.kPriorityLevel <<< (8 - m.ECLICINTCTLBITS) ∧
        s'.mem (Eclic.intattr m d.kInterruptSource) =
          d.kTrigger.toNat ||| d.kHandleMode.toNat := by
  have hN : m.ECLIC_NUM_INTERRUPTS ≤ 2 ^ 32 := by
    have := hm.2.2.2.2.2.1
    omega
  have hv : Eclic.IsValidTrait tr = true := (Eclic.IsValidTrait_iff tr).2 ht
  have hg : Eclic.IsValidInterruptGroup T Ts = true :=
    (Eclic.IsValidInterruptGroup_iff hN T Ts).2 hnd
  refine ⟨_, Eclic.Init_eq_some tr T Ts s hv hg, ?_, ?_, ?_⟩
  · rw [Eclic.InitBody_mem_cfg hm, Eclic.kCfgMask_eq]
  · rw [Eclic.InitBody_mem_mth hm, Eclic.kMthMask_eq ht]
  · intro d hd
    have hslot := Eclic.InitBody_mem_slot hm tr (T :: Ts) hnd s d hd
    have hpow : 2 ^ 4 ≤ 2 ^ m.ECLICINTCTLBITS := Nat.pow_le_pow_right (by decide) hb
    have hpd : d.Trait.kPriorityLevel < 2 ^ m.ECLICINTCTLBITS :=
      lt_of_lt_of_le (hp d hd) hpow
    constructor
    · rw [← Interrupt.kIntCfgMask_eq d hm.2.2.2.2.2.2 hpd]
      exact hslot.1
    · rw [← Interrupt.kIntAttrMask_eq d]
      exact hslot.2

/-- Claim C5, the end-to-end instance: group `L3P1`, threshold 0, source 5 (level, non-vectored,
priority `0b1101`) and source 9 (rising edge, vectored, priority `0b0010`) on the `n200` map,
from the garbage-filled register block: config byte `0b0110`, threshold byte 0, source 5
control `0xD0` and attribute `0b000`, source 9 control `0x20` and attribute `0b011`. -/
theorem Eclic.Init_programs_globals_and_declared_slots_witness :
    ∃ s', Eclic.Init EclicExampleTrait [irq5, irq9] garbage = some s' ∧
      s'.mem (Eclic.cfg n200) = 0b0110 ∧ s'.mem (Eclic.mth n200) = 0 ∧
      s'.mem (Eclic.intctl n200 5) = 0xD0 ∧ s'.mem (Eclic.intattr n200 5) = 0b000 ∧
      s'.mem (Eclic.intctl n200 9) = 0x20 ∧ s'.mem (Eclic.intattr n200 9) = 0b011 := by
  obtain ⟨s', h0, h1, h2, h3⟩ :=
    Eclic.Init_programs_globals_and_declared_slots (by decide : n200.WF) (by decide)
      EclicExampleTrait irq5 [irq9] garbage (by decide) (by decide) (by decide)
  exact ⟨s', h0, h1, h2, (h3 irq5 (by simp)).1, (h3 irq5 (by simp)).2,
    (h3 irq9 (by simp)).1, (h3 irq9 (by simp)).2⟩

/-! ## The descriptor operations -/

/-- Claim C6. For every descriptor `d` (identifier below `ECLIC_NUM_INTERRUPTS` by
construction) on a well-formed map and every register state, `d.Init` issues exactly two
byte writes: the control byte of the source receives `kIntCfgMask` and its attribute byte
receives `kIntAttrMask`. Every other byte keeps its value: in particular the pending and
enable bytes of every source (the descriptor's own included) and the attribute and control
bytes of every other source. -/
theorem Interrupt.Init_changes_exactly_control_and_attribute {m : EclicMap} (hm : m.WF)
    (d : Interrupt m) (s : Machine) :
    d.intcfg = Eclic.intctl m d.kInterruptSource ∧
    d.intattr = Eclic.intattr m d.kInterruptSource ∧
    (d.Init s).mem d.intcfg = d.kIntCfgMask ∧
    (d.Init s).mem d.intattr = d.kIntAttrMask ∧
    (∀ a, a ≠ d.intcfg → a ≠ d.intattr → (d.Init s).mem a = s.mem a) ∧
    (d.Init s).trace = s.trace ++ [⟨d.intcfg, 1, d.kIntCfgMask⟩, ⟨d.intattr, 1, d.kIntAttrMask⟩] ∧
    (∀ j, j < m.ECLIC_NUM_INTERRUPTS →
      (d.Init s).mem (Eclic.intip m j) = s.mem (Eclic.intip m j) ∧
      (d.Init s).mem (Eclic.intie m j) = s.mem (Eclic.intie m j) ∧
      (j ≠ d.kInterruptSource →
        (d.Init s).mem (Eclic.intattr m j) = s.mem (Eclic.intattr m j) ∧
        (d.Init s).mem (Eclic.intctl m j) = s.mem (Eclic.intctl m j))) := by
  have hcfg := Interrupt.intcfg_addr hm d
  have hattr := Interrupt.intattr_addr hm d
  have other : ∀ a, a ≠ d.intcfg → a ≠ d.intattr → (d.Init s).mem a = s.mem a := by
    intro a h1 h2
    rw [Interrupt.Init_mem, if_neg h2, if_neg h1]
  refine ⟨rfl, rfl, ?_, ?_, other, ?_, ?_⟩
  · rw [Interrupt.Init_mem, if_neg (by omega), if_pos rfl]
  · rw [Interrupt.Init_mem, if_pos rfl]
  · simp only [Interrupt.Init, store8_trace, Interrupt.uint8_kIntCfgMask,
      Interrupt.uint8_kIntAttrMask, List.append_assoc, List.singleton_append]
  · intro j hj
    have hip := Eclic.intip_eq hm hj
    have hie := Eclic.intie_eq hm hj
    have hat := Eclic.intattr_eq hm hj
    have hct := Eclic.intctl_eq hm hj
    clear hm
    refine ⟨other _ (by omega) (by omega), other _ (by omega) (by omega), fun hne =>
      ⟨other _ (by omega) (by omega), other _ (by omega) (by omega)⟩⟩

/-- Claim C6, instance: source 5 on the `n200` map, from the garbage-filled register block. -/
theorem Interrupt.Init_changes_exactly_control_and_attribute_witness :
    n200.WF ∧ (irq5.Init garbage).mem irq5.intcfg = 0xD0 ∧
    (irq5.Init garbage).mem irq5.intattr = 0 ∧
    (irq5.Init garbage).mem (Eclic.intie n200 5) = 0xFF :=
  ⟨by decide,
   (Interrupt.Init_changes_exactly_control_and_attribute (by decide) irq5 garbage).2.2.1,
   (Interrupt.Init_changes_exactly_control_and_attribute (by decide) irq5 garbage).2.2.2.1,
   ((Interrupt.Init_changes_exactly_control_and_attribute (by decide) irq5 garbage).2.2.2.2.2.2
      5 (by decide)).2.1⟩

theorem Eclic.foldl_store8_mem {m : EclicMap} (v : Nat) (ds : List (Interrupt m)) (s : Machine)
    (a : Nat) :
    (ds.foldl (fun acc d => acc.store8 d.intie v) s).mem a =
      if a ∈ ds.map Interrupt.intie then uint8 v else s.mem a := by
  induction ds generalizing s with
  | nil => simp
  | cons d ds ih =>
    rw [List.foldl_cons, ih, store8_mem, List.map_cons]
    by_cases h1 : a ∈ ds.map Interrupt.intie
    · rw [if_pos h1, if_pos (List.mem_cons_of_mem _ h1)]
    · by_cases h2 : a = d.intie
      · rw [if_neg h1, if_pos h2, if_pos (List.mem_cons.2 (Or.inl h2))]
      · rw [if_neg h1, if_neg h2, if_neg (fun h => (List.mem_cons.1 h).elim h2 h1)]

/-- Claim C7. For every register state and every pack of named descriptors,
`EnableInterrupts` leaves 1 and `DisableInterrupts` leaves 0 in the enable byte of each named
source, and every byte that is not the enable byte of a named source keeps its value. For two
descriptors `X`, `Y` of distinct sources on a well-formed map, the enable byte of `Y` has its
initial value after `Enable(X)` and again after the following `Disable(X)`. -/
theorem Eclic.EnableInterrupts_DisableInterrupts_frame {m : EclicMap} (hm : m.WF)
    (ds : List (Interrupt m)) (s : Machine) (X Y : Interrupt m)
    (hXY : X.kInterruptSource ≠ Y.kInterruptSource) :
    (∀ d ∈ ds, d.intie = Eclic.intie m d.kInterruptSource ∧
      (Eclic.EnableInterrupts ds s).mem d.intie = 1 ∧
      (Eclic.DisableInterrupts ds s).mem d.intie = 0) ∧
    (∀ a, (∀ d ∈ ds, a ≠ d.intie) →
      (Eclic.EnableInterrupts ds s).mem a = s.mem a ∧
      (Eclic.DisableInterrupts ds s).mem a = s.mem a) ∧
    (Eclic.EnableInterrupts [X] s).mem Y.intie = s.mem Y.intie ∧
    (Eclic.DisableInterrupts [X] (Eclic.EnableInterrupts [X] s)).mem Y.intie =
      s.mem Y.intie := by
  have en : ∀ (l : List (Interrupt m)) (t : Machine) (a : Nat),
      (Eclic.EnableInterrupts l t).mem a = if a ∈ l.map Interrupt.intie then 1 else t.mem a :=
    fun l t a => Eclic.foldl_store8_mem 1 l t a
  have dis : ∀ (l : List (Interrupt m)) (t : Machine) (a : Nat),
      (Eclic.DisableInterrupts l t).mem a = if a ∈ l.map Interrupt.intie then 0 else t.mem a :=
    fun l t a => Eclic.foldl_store8_mem 0 l t a
  have hYX : Y.intie ∉ [X].map Interrupt.intie := by
    rw [List.map_singleton, List.mem_singleton, Interrupt.intie_addr hm X, Interrupt.intie_addr hm Y]
    clear hm
    omega
  refine ⟨?_, ?_, ?_, ?_⟩
  · intro d hd
    have hmem : d.intie ∈ ds.map Interrupt.intie := List.mem_map_of_mem _ hd
    exact ⟨rfl, by rw [en, if_pos hmem], by rw [dis, if_pos hmem]⟩
  · intro a ha
    have hmem : a ∉ ds.map Interrupt.intie := by
      intro h
      obtain ⟨d, hd, e⟩ := List.mem_map.1 h
      exact ha d hd e.symm
    exact ⟨by rw [en, if_neg hmem], by rw [dis, if_neg hmem]⟩
  · rw [en, if_neg hYX]
  · rw [dis, if_neg hYX, en, if_neg hYX]

/-- Claim C7, instance: sources 5 and 9 on the `n200` map, from the garbage-filled register
block: enabling and then disabling source 5 leaves `0xFF` in the enable byte of source 9. -/
theorem Eclic.EnableInterrupts_DisableInterrupts_frame_witness :
    n200.WF ∧ irq5.kInterruptSource ≠ irq9.kInterruptSource ∧
    (Eclic.EnableInterrupts [irq5] garbage).mem irq9.intie = 0xFF ∧
    (Eclic.DisableInterrupts [irq5] (Eclic.EnableInterrupts [irq5] garbage)).mem irq9.intie =
      0xFF :=
  ⟨by decide, by decide,
   (Eclic.EnableInterrupts_DisableInterrupts_frame (by decide) [irq5] garbage irq5 irq9
      (by decide)).2.2.1,
   (Eclic.EnableInterrupts_DisableInterrupts_frame (by decide) [irq5] garbage irq5 irq9
      (by decide)).2.2.2⟩

/-- Claim C8. Round trip of the control byte: for every usable-bit count `b ≤ 8` (so for every
`b` with `1 ≤ b ≤ 8`) and every priority `p ≤ 2^b - 1`, the control byte `kIntCfgMask`
(`p << (8 - b)` stored in 8 bits) shifted right by `8 - b` is `p`. -/
theorem Interrupt.kIntCfgMask_shiftRight_recovers_priority {m : EclicMap} (d : Interrupt m)
    (hb8 : m.ECLICINTCTLBITS ≤ 8)
    (hp : d.Trait.kPriorityLevel ≤ 2 ^ m.ECLICINTCTLBITS - 1) :
    d.kIntCfgMask >>> (8 - m.ECLICINTCTLBITS) = d.Trait.kPriorityLevel := by
  have hpos : 0 < 2 ^ m.ECLICINTCTLBITS := Nat.two_pow_pos _
  rw [Interrupt.kIntCfgMask_eq d hb8 (by omega), Nat.shiftLeft_eq, Nat.shiftRight_eq_div_pow,
    Nat.mul_div_cancel _ (Nat.two_pow_pos _)]

/-- Claim C8, instance: source 5 (priority `0b1101`) with the 4 usable bits of `n200`: the
control byte `0xD0` shifted right by 4 is `0b1101`. -/
theorem Interrupt.kIntCfgMask_shiftRight_recovers_priority_witness :
    1 ≤ n200.ECLICINTCTLBITS ∧ n200.ECLICINTCTLBITS ≤ 8 ∧
    irq5.Trait.kPriorityLevel ≤ 2 ^ n200.ECLICINTCTLBITS - 1 ∧
    irq5.kIntCfgMask = 0xD0 ∧ irq5.kIntCfgMask >>> (8 - n200.ECLICINTCTLBITS) = 0b1101 :=
  ⟨by decide, by decide, by decide, by decide,
   Interrupt.kIntCfgMask_shiftRight_recovers_priority irq5 (by decide) (by decide)⟩

/-- Claim C10, as stated, fails on the code. For the rising-edge, vectored descriptor `irq9` the
attribute byte is `0b011`: for no trigger-field width `w` are its `w` lowest bits the trigger
encoding `0b010` with the vectored flag in bit `w`. -/
theorem Interrupt.kIntAttrMask_not_as_worded :
    irq9.kTrigger = .Posedge ∧ irq9.kHandleMode = .Vectored ∧ irq9.kIntAttrMask = 0b011 ∧
    ¬ ∃ w, attrLayoutAsWorded w irq9.kIntAttrMask irq9.kTrigger irq9.kHandleMode := by
  refine ⟨rfl, rfl, by decide, ?_⟩
  rintro ⟨w, h1, -⟩
  have e : irq9.kIntAttrMask = 3 := by decide
  have t : irq9.kTrigger.toNat = 2 := by decide
  rw [e, t] at h1
  rcases Nat.lt_or_ge w 2 with hw | hw
  · interval_cases w
    · omega
    · omega
  · have h4 : 2 ^ 2 ≤ 2 ^ w := Nat.pow_le_pow_right (by decide) hw
    have : 3 % 2 ^ w = 3 := Nat.mod_eq_of_lt (by omega)
    omega

/-- Claim C10, amended. For every trigger mode and handle mode the attribute byte is
`trigger | handle mode`, below 8: its bit 0 is the vectored flag (every trigger encoding has
bit 0 clear) and the two bits directly above it, bits 1 and 2, are the trigger bits
(level `00`, rising edge `01`, falling edge `11`). -/
theorem Interrupt.kIntAttrMask_layout {m : EclicMap} (d : Interrupt m) :
    d.kIntAttrMask = d.kTrigger.toNat ||| d.kHandleMode.toNat ∧
    d.kIntAttrMask < 8 ∧
    d.kIntAttrMask % 2 = d.kHandleMode.toNat ∧
    d.kIntAttrMask / 2 = d.kTrigger.toNat / 2 ∧
    d.kTrigger.toNat % 2 = 0 ∧
    (d.kTrigger = .Level → d.kIntAttrMask / 2 = 0b00) ∧
    (d.kTrigger = .Posedge → d.kIntAttrMask / 2 = 0b01) ∧
    (d.kTrigger = .Negedge → d.kIntAttrMask / 2 = 0b11) := by
  obtain ⟨src, ⟨hmode, trig, p⟩, h⟩ := d
  cases hmode <;> cases trig <;>
    simp [Interrupt.kIntAttrMask, Interrupt.kTrigger, Interrupt.kHandleMode, Trigger.toNat,
      HandleMode.toNat, uint8]

/-! ## The CSR access primitive -/

/-- Claim C9. For every access tag, each of `Write`, `Set` and `Clear` is accepted exactly when
the tag is `MRW` or `URW`, and is rejected (no result) when the tag is `MRO` or `URO`,
whatever the operand and whichever instruction form is selected; `Read` has no guard and
returns the content of the register for all four tags. -/
theorem AbstractCsr.Write_Set_Clear_accepted_iff_read_write (c : AbstractCsr)
    (constant_p : Bool) (v : Nat) (f : CsrFile) :
    ((c.Write constant_p v f).isSome = true ↔
      (c.kAccessibility = .MRW ∨ c.kAccessibility = .URW)) ∧
    ((c.Set constant_p v f).isSome = true ↔
      (c.kAccessibility = .MRW ∨ c.kAccessibility = .URW)) ∧
    ((c.Clear constant_p v f).isSome = true ↔
      (c.kAccessibility = .MRW ∨ c.kAccessibility = .URW)) ∧
    ((c.kAccessibility = .MRO ∨ c.kAccessibility = .URO) →
      c.Write constant_p v f = none ∧ c.Set constant_p v f = none ∧
      c.Clear constant_p v f = none) ∧
    c.Read f = f c.kAddress := by
  obtain ⟨addr, acc, h⟩ := c
  cases acc <;> cases constant_p <;> by_cases hv : uint32 v < 32 <;>
    simp [AbstractCsr.Write, AbstractCsr.Set, AbstractCsr.Clear, AbstractCsr.Read,
      AbstractCsr.writable, csrr, hv]

/-! ## The body of `Init` as a sequence of bus writes -/

theorem Machine.store8_eq_exec (s : Machine) (a v : Nat) :
    s.store8 a v = s.exec ⟨a, 1, uint8 v⟩ := by
  have hmem : (fun x => if x = a then uint8 v else s.mem x) =
      BusWrite.apply ⟨a, 1, uint8 v⟩ s.mem := by
    funext x
    by_cases h : x = a
    · subst h
      simp [BusWrite.apply, uint8_uint8]
    · have h2 : ¬ (a ≤ x ∧ x < a + 1) := by omega
      simp only [BusWrite.apply, if_neg h, if_neg h2]
  simp only [Machine.store8, Machine.exec, hmem]

theorem Machine.store32_eq_exec (s : Machine) (a v : Nat) :
    s.store32 a v = s.exec ⟨a, 4, uint32 v⟩ := rfl

theorem Machine.execs_nil (s : Machine) : s.execs [] = s := rfl

theorem Machine.execs_cons (s : Machine) (w : BusWrite) (ws : List BusWrite) :
    s.execs (w :: ws) = (s.exec w).execs ws := rfl

theorem Machine.execs_append (s : Machine) (ws vs : List BusWrite) :
    s.execs (ws ++ vs) = (s.execs ws).execs vs := by
  simp only [Machine.execs, List.foldl_append]

theorem Machine.execs_trace (s : Machine) (ws : List BusWrite) :
    (s.execs ws).trace = s.trace ++ ws := by
  induction ws generalizing s with
  | nil => simp [Machine.execs_nil]
  | cons w ws ih =>
    rw [Machine.execs_cons, ih]
    simp [Machine.exec]

/-- The clearing loop from `ptr` up to `ptr + 16 * n` issues `n` zero words, at stride 16. -/
theorem Eclic.clearLoop_eq_execs (n ptr : Nat) (s : Machine) :
    Eclic.clearLoop (ptr + 16 * n) ptr s =
      s.execs ((List.range n).map fun k => ⟨ptr + 16 * k, 4, 0⟩) := by
  induction n generalizing ptr s with
  | zero =>
    rw [Eclic.clearLoop, if_neg (by omega)]
    rfl
  | succ n ih =>
    have hup : ptr + 16 * (n + 1) = (ptr + 4 * 4) + 16 * n := by omega
    rw [Eclic.clearLoop, if_pos (by omega), hup, ih, List.range_succ_eq_map, List.map_cons,
      List.map_map, Machine.execs_cons, Machine.store32_eq_exec]
    have hf : ((fun k => (⟨ptr + 16 * k, 4, 0⟩ : BusWrite)) ∘ Nat.succ) =
        fun k => ⟨ptr + 4 * 4 + 16 * k, 4, 0⟩ := by
      funext k
      simp only [Function.comp, Nat.succ_eq_add_one, BusWrite.mk.injEq, and_true]
      omega
    rw [hf]
    rfl

theorem Interrupt.Init_eq_execs {m : EclicMap} (d : Interrupt m) (s : Machine) :
    d.Init s = s.execs d.InitWrites := by
  rw [Interrupt.Init, Machine.store8_eq_exec, Machine.store8_eq_exec,
    Interrupt.uint8_kIntCfgMask, Interrupt.uint8_kIntAttrMask]
  rfl

theorem Eclic.foldl_Init_eq_execs {m : EclicMap} (ds : List (Interrupt m)) (s : Machine) :
    ds.foldl (fun acc d => d.Init acc) s = s.execs (ds.flatMap Interrupt.InitWrites) := by
  induction ds generalizing s with
  | nil => rfl
  | cons d ds ih =>
    rw [List.foldl_cons, ih, List.flatMap_cons, Machine.execs_append, Interrupt.Init_eq_execs]

/-- The body of `Init` issues exactly the write sequence `Eclic.InitWrites`. -/
theorem Eclic.InitBody_eq_execs {m : EclicMap} (tr : EclicTrait) (ds : List (Interrupt m))
    (s : Machine) : Eclic.InitBody tr ds s = s.execs (Eclic.InitWrites tr ds) := by
  have hup : Eclic.upper m = Eclic.base m + 16 * m.ECLIC_NUM_INTERRUPTS := by
    rw [Eclic.upper]
    omega
  have h0 : uint8 0 = 0 := rfl
  have hc : uint32 (Eclic.kCfgMask tr) = Eclic.kCfgMask tr := uint32_uint8 _
  have ht : uint32 (Eclic.kMthMask tr) = Eclic.kMthMask tr := uint32_uint8 _
  simp only [Eclic.InitBody, Eclic.InitWrites, Eclic.clearWrites, hup, Eclic.clearLoop_eq_execs,
    Eclic.foldl_Init_eq_execs, Machine.store8_eq_exec, Machine.store32_eq_exec,
    Machine.execs_append, Machine.execs_cons, Machine.execs_nil, h0, hc, ht]

/-! ## Running a write sequence twice -/

theorem Machine.exec_mem_of_covered (s : Machine) (w : BusWrite) (x : Nat)
    (h : w.addr ≤ x ∧ x < w.addr + w.width) :
    (s.exec w).mem x = uint8 (w.value / 256 ^ (x - w.addr)) := by
  simp only [Machine.exec, BusWrite.apply, if_pos h]

theorem Machine.exec_mem_of_not_covered (s : Machine) (w : BusWrite) (x : Nat)
    (h : ¬ (w.addr ≤ x ∧ x < w.addr + w.width)) :
    (s.exec w).mem x = s.mem x := by
  simp only [Machine.exec, BusWrite.apply, if_neg h]

/-- A byte that no write of the sequence covers keeps its value. -/
theorem Machine.execs_mem_of_not_covered (ws : List BusWrite) (s : Machine) (x : Nat)
    (h : ¬ covered ws x) : (s.execs ws).mem x = s.mem x := by
  induction ws generalizing s with
  | nil => rfl
  | cons w ws ih =>
    have hw : ¬ (w.addr ≤ x ∧ x < w.addr + w.width) :=
      fun hc => h ⟨w, List.mem_cons_self _ _, hc⟩
    have hws : ¬ covered ws x :=
      fun ⟨v, hv, hc⟩ => h ⟨v, List.mem_cons_of_mem _ hv, hc⟩
    rw [Machine.execs_cons, ih _ hws, Machine.exec_mem_of_not_covered _ _ _ hw]

/-- The value a write sequence leaves in a byte depends on the initial memory only through
that byte, and not at all when a write covers the byte. -/
theorem Machine.execs_mem_congr (ws : List BusWrite) (s t : Machine) (x : Nat)
    (h : s.mem x = t.mem x ∨ covered ws x) : (s.execs ws).mem x = (t.execs ws).mem x := by
  induction ws generalizing s t with
  | nil =>
    rcases h with h | ⟨w, hw, -⟩
    · exact h
    · simp at hw
  | cons w ws ih =>
    rw [Machine.execs_cons, Machine.execs_cons]
    apply ih
    by_cases hc : w.addr ≤ x ∧ x < w.addr + w.width
    · left
      rw [Machine.exec_mem_of_covered _ _ _ hc, Machine.exec_mem_of_covered _ _ _ hc]
    · rcases h with h | ⟨v, hv, hvc⟩
      · left
        rw [Machine.exec_mem_of_not_covered _ _ _ hc, Machine.exec_mem_of_not_covered _ _ _ hc]
        exact h
      · rcases List.mem_cons.1 hv with e | hv
        · subst e
          exact absurd hvc hc
        · exact Or.inr ⟨v, hv, hvc⟩

/-- Issuing a write sequence a second time does not change memory. -/
theorem Machine.execs_execs_mem (ws : List BusWrite) (s : Machine) :
    ((s.execs ws).execs ws).mem = (s.execs ws).mem := by
  funext x
  apply Machine.execs_mem_congr
  by_cases hc : covered ws x
  · exact Or.inr hc
  · exact Or.inl (Machine.execs_mem_of_not_covered ws s x hc)

/-- Claim C11. For every valid configuration (threshold `t ≤ 2^g - 1`, pack with pairwise
distinct identifiers of a 32-bit type) and every register state `s`, `Init` succeeds on `s`
and again on the state it returns, and the second run leaves every register byte as the
first run left it: `Init(Init(s))` and `Init(s)` have the same memory. -/
theorem Eclic.Init_twice_same_registers {m : EclicMap} (hN : m.ECLIC_NUM_INTERRUPTS ≤ 2 ^ 32)
    (tr : EclicTrait) (T : Interrupt m) (Ts : List (Interrupt m)) (s : Machine)
    (ht : tr.kThresholdLevel ≤ 2 ^ tr.kPriorityLevelGroup.toNat - 1)
    (hnd : ((T :: Ts).map Interrupt.kInterruptSource).Pairwise (fun a b => a ≠ b)) :
    ∃ s1 s2, Eclic.Init tr (T :: Ts) s = some s1 ∧ Eclic.Init tr (T :: Ts) s1 = some s2 ∧
      s2.mem = s1.mem := by
  have hv : Eclic.IsValidTrait tr = true := (Eclic.IsValidTrait_iff tr).2 ht
  have hg : Eclic.IsValidInterruptGroup T Ts = true :=
    (Eclic.IsValidInterruptGroup_iff hN T Ts).2 hnd
  refine ⟨_, _, Eclic.Init_eq_some tr T Ts s hv hg, Eclic.Init_eq_some tr T Ts _ hv hg, ?_⟩
  rw [Eclic.InitBody_eq_execs, Eclic.InitBody_eq_execs]
  exact Machine.execs_execs_mem _ s

/-- Claim C11, instance: the example trait with the pack `irq5, irq9` on the `n200` map, from
the garbage-filled register block. -/
theorem Eclic.Init_twice_same_registers_witness :
    n200.ECLIC_NUM_INTERRUPTS ≤ 2 ^ 32 ∧
    ∃ s1 s2, Eclic.Init EclicExampleTrait [irq5, irq9] garbage = some s1 ∧
      Eclic.Init EclicExampleTrait [irq5, irq9] s1 = some s2 ∧ s2.mem = s1.mem :=
  ⟨by decide,
   Eclic.Init_twice_same_registers (by decide) EclicExampleTrait irq5 [irq9] garbage
     (by decide) (by decide)⟩

/-! ## The order of the writes of `Init` -/

/-- A descriptor write is a byte write at or above the base of the per-source array. -/
theorem Eclic.descriptor_write_shape {m : EclicMap} (hm : m.WF) (ds : List (Interrupt m))
    (w : BusWrite) (hw : w ∈ ds.flatMap Interrupt.InitWrites) :
    w.width = 1 ∧ Eclic.base m ≤ w.addr := by
  obtain ⟨d, -, hd⟩ := List.mem_flatMap.1 hw
  have hcfg := Interrupt.intcfg_addr hm d
  have hattr := Interrupt.intattr_addr hm d
  have hbase := Eclic.base_eq hm
  clear hm hw
  simp only [Interrupt.InitWrites, List.mem_cons, List.mem_singleton, List.not_mem_nil,
    or_false] at hd
  rcases hd with e | e <;> subst e <;> exact ⟨rfl, by simp only []; omega⟩

/-- A clearing write is a word write at or above the base of the per-source array. -/
theorem Eclic.clear_write_shape (m : EclicMap) (w : BusWrite) (hw : w ∈ Eclic.clearWrites m) :
    w.width = 4 ∧ w.value = 0 ∧ Eclic.base m ≤ w.addr := by
  obtain ⟨k, -, e⟩ := List.mem_map.1 hw
  subst e
  exact ⟨rfl, rfl, Nat.le_add_right _ _⟩

/-- Claim C12. For every valid configuration on a well-formed map, the writes that `Init` adds
to the trace are, in this order: a zero byte to the global config register and a zero byte to
the global threshold register; the clearing writes of the loop; the config value
`group << 1` and the threshold value; the control and attribute writes of each descriptor, in
declaration order. No write before the config value is a descriptor write, and no write after
it is a clearing write. -/
theorem Eclic.Init_write_order {m : EclicMap} (hm : m.WF) (tr : EclicTrait) (T : Interrupt m)
    (Ts : List (Interrupt m)) (s : Machine)
    (ht : tr.kThresholdLevel ≤ 2 ^ tr.kPriorityLevelGroup.toNat - 1)
    (hnd : ((T :: Ts).map Interrupt.kInterruptSource).Pairwise (fun a b => a ≠ b)) :
    ∃ s', Eclic.Init tr (T :: Ts) s = some s' ∧
      s'.trace = s.trace ++
        ([⟨Eclic.cfg m, 1, 0⟩, ⟨Eclic.mth m, 1, 0⟩] ++ Eclic.clearWrites m ++
          [⟨Eclic.cfg m, 4, tr.kPriorityLevelGroup.toNat <<< 1⟩,
           ⟨Eclic.mth m, 4, tr.kThresholdLevel⟩] ++
          (T :: Ts).flatMap Interrupt.InitWrites) ∧
      (∀ w ∈ ([⟨Eclic.cfg m, 1, 0⟩, ⟨Eclic.mth m, 1, 0⟩] : List BusWrite) ++
          Eclic.clearWrites m, w ∉ (T :: Ts).flatMap Interrupt.InitWrites) ∧
      (∀ w ∈ (⟨Eclic.mth m, 4, tr.kThresholdLevel⟩ : BusWrite) ::
          (T :: Ts).flatMap Interrupt.InitWrites, w ∉ Eclic.clearWrites m) := by
  have hN : m.ECLIC_NUM_INTERRUPTS ≤ 2 ^ 32 := by
    have := hm.2.2.2.2.2.1
    omega
  have hv : Eclic.IsValidTrait tr = true := (Eclic.IsValidTrait_iff tr).2 ht
  have hg : Eclic.IsValidInterruptGroup T Ts = true :=
    (Eclic.IsValidInterruptGroup_iff hN T Ts).2 hnd
  have hcfg : Eclic.cfg m < Eclic.base m := by
    rw [Eclic.cfg_eq hm, Eclic.base_eq hm]
    have h1 := hm.1
    have h2 := hm.2.1
    omega
  have hmth : Eclic.mth m < Eclic.base m := by
    rw [Eclic.mth_eq hm, Eclic.base_eq hm]
    have h2 := hm.2.1
    omega
  refine ⟨_, Eclic.Init_eq_some tr T Ts s hv hg, ?_, ?_, ?_⟩
  · rw [Eclic.InitBody_eq_execs, Machine.execs_trace, Eclic.InitWrites, Eclic.kCfgMask_eq,
      Eclic.kMthMask_eq ht]
  · intro w hw hdesc
    have hshape := Eclic.descriptor_write_shape hm _ w hdesc
    rcases List.mem_append.1 hw with h | h
    · simp only [List.mem_cons, List.mem_singleton, List.not_mem_nil, or_false] at h
      rcases h with e | e
      · rw [e] at hshape
        exact absurd hshape.2 (Nat.not_le.2 hcfg)
      · rw [e] at hshape
        exact absurd hshape.2 (Nat.not_le.2 hmth)
    · have h4 := (Eclic.clear_write_shape m w h).1
      rw [hshape.1] at h4
      exact absurd h4 (by decide)
  · intro w hw hclear
    have hshape := Eclic.clear_write_shape m w hclear
    rcases List.mem_cons.1 hw with e | h
    · rw [e] at hshape
      exact absurd hshape.2.2 (Nat.not_le.2 hmth)
    · have h1 := (Eclic.descriptor_write_shape hm _ w h).1
      rw [hshape.1] at h1
      exact absurd h1 (by decide)

/-- Claim C12, instance: the example trait with the pack `irq5, irq9` on the `n200` map: the
trace starts with the two zero bytes, continues with the 87 clearing words, then the config
value 6 and the threshold value 0, and ends with the writes of source 5 and then source 9. -/
theorem Eclic.Init_write_order_witness :
    ∃ s', Eclic.Init EclicExampleTrait [irq5, irq9] garbage = some s' ∧
      s'.trace =
        [⟨Eclic.cfg n200, 1, 0⟩, ⟨Eclic.mth n200, 1, 0⟩] ++ Eclic.clearWrites n200 ++
          [⟨Eclic.cfg n200, 4, 6⟩, ⟨Eclic.mth n200, 4, 0⟩] ++
          [⟨irq5.intcfg, 1, 0xD0⟩, ⟨irq5.intattr, 1, 0⟩, ⟨irq9.intcfg, 1, 0x20⟩,
           ⟨irq9.intattr, 1, 3⟩] ∧
      (Eclic.clearWrites n200).length = 87 := by
  obtain ⟨s', h0, h1, -, -⟩ :=
    Eclic.Init_write_order (by decide : n200.WF) EclicExampleTrait irq5 [irq9] garbage
      (by decide) (by decide)
  refine ⟨s', h0, ?_, ?_⟩
  · rw [h1]
    rfl
  · simp [Eclic.clearWrites, n200]

/-! ## Descriptor construction and the per-source span -/

theorem Interrupt.Enable_mem {m : EclicMap} (d : Interrupt m) (s : Machine) (a : Nat) :
    (d.Enable s).mem a = if a = d.intie then 1 else s.mem a := rfl

theorem Interrupt.Disable_mem {m : EclicMap} (d : Interrupt m) (s : Machine) (a : Nat) :
    (d.Disable s).mem a = if a = d.intie then 0 else s.mem a := rfl

/-- The three bytes a descriptor writes lie in the per-source span. -/
theorem Interrupt.addresses_in_span {m : EclicMap} (hm : m.WF) (d : Interrupt m) :
    ∀ a ∈ [d.intcfg, d.intattr, d.intie],
      Eclic.base m ≤ a ∧ a < Eclic.base m + 4 * m.ECLIC_NUM_INTERRUPTS := by
  have hcfg := Interrupt.intcfg_addr hm d
  have hattr := Interrupt.intattr_addr hm d
  have hie := Interrupt.intie_addr hm d
  have hbase := Eclic.base_eq hm
  have hd : d.kInterruptSource < m.ECLIC_NUM_INTERRUPTS := d.source_in_range
  clear hm
  intro a ha
  simp only [List.mem_cons, List.mem_singleton, List.not_mem_nil, or_false] at ha
  rcases ha with e | e | e <;> subst e <;> omega

/-- Claim C13. Every instantiated descriptor has its identifier below `ECLIC_NUM_INTERRUPTS`;
instantiation with an identifier at or above that count is rejected and with one below it
succeeds; and on a well-formed map the writes of `Init` (control and attribute byte), `Enable`
and `Disable` (enable byte) all go to addresses inside the per-source span
`[base, base + 4 * ECLIC_NUM_INTERRUPTS)`, so that every byte outside the span keeps its
value. -/
theorem Interrupt.identifier_in_range_and_writes_in_span {m : EclicMap} (hm : m.WF)
    (d : Interrupt m) (s : Machine) (src : Nat) (trait : IrqTrait) :
    d.kInterruptSource < m.ECLIC_NUM_INTERRUPTS ∧
    (m.ECLIC_NUM_INTERRUPTS ≤ src → Interrupt.instantiate m src trait = none) ∧
    (src < m.ECLIC_NUM_INTERRUPTS → ∃ e, Interrupt.instantiate m src trait = some e ∧
      e.kInterruptSource = src ∧ e.Trait = trait) ∧
    (d.Init s).trace = s.trace ++ [⟨d.intcfg, 1, d.kIntCfgMask⟩, ⟨d.intattr, 1, d.kIntAttrMask⟩] ∧
    (d.Enable s).trace = s.trace ++ [⟨d.intie, 1, 1⟩] ∧
    (d.Disable s).trace = s.trace ++ [⟨d.intie, 1, 0⟩] ∧
    (∀ a ∈ [d.intcfg, d.intattr, d.intie],
      Eclic.base m ≤ a ∧ a < Eclic.base m + 4 * m.ECLIC_NUM_INTERRUPTS) ∧
    (∀ a, (a < Eclic.base m ∨ Eclic.base m + 4 * m.ECLIC_NUM_INTERRUPTS ≤ a) →
      (d.Init s).mem a = s.mem a ∧ (d.Enable s).mem a = s.mem a ∧
      (d.Disable s).mem a = s.mem a) := by
  have hspan := Interrupt.addresses_in_span hm d
  refine ⟨d.source_in_range, ?_, ?_, ?_, rfl, rfl, hspan, ?_⟩
  · intro h
    simp only [Interrupt.instantiate, dif_neg (Nat.not_lt.2 h)]
  · intro h
    refine ⟨{ tInterruptSource := src, Trait := trait, source_in_range := h }, ?_, rfl, rfl⟩
    simp only [Interrupt.instantiate, dif_pos h]
  · rw [Interrupt.Init_eq_execs, Machine.execs_trace]
    rfl
  · intro a ha
    have h1 := hspan d.intcfg (by simp)
    have h2 := hspan d.intattr (by simp)
    have h3 := hspan d.intie (by simp)
    have n1 : a ≠ d.intcfg := by omega
    have n2 : a ≠ d.intattr := by omega
    have n3 : a ≠ d.intie := by omega
    rw [Interrupt.Init_mem, if_neg n2, if_neg n1, Interrupt.Enable_mem, if_neg n3,
      Interrupt.Disable_mem, if_neg n3]
    exact ⟨rfl, rfl, rfl⟩

/-- Claim C13, instance: on the `n200` map (87 lines) identifier 87 is rejected, identifier 86
is accepted, and the enable byte of `irq5` lies in the span. -/
theorem Interrupt.identifier_in_range_and_writes_in_span_witness :
    n200.WF ∧ Interrupt.instantiate n200 87 IrqExampleTrait = none ∧
    (∃ e, Interrupt.instantiate n200 86 IrqExampleTrait = some e ∧
      e.kInterruptSource = 86 ∧ e.Trait = IrqExampleTrait) ∧
    (Eclic.base n200 ≤ irq5.intie ∧
      irq5.intie < Eclic.base n200 + 4 * n200.ECLIC_NUM_INTERRUPTS) :=
  ⟨by decide,
   (Interrupt.identifier_in_range_and_writes_in_span (by decide) irq5 garbage 87
      IrqExampleTrait).2.1 (by decide),
   (Interrupt.identifier_in_range_and_writes_in_span (by decide) irq5 garbage 86
      IrqExampleTrait).2.2.1 (by decide),
   (Interrupt.identifier_in_range_and_writes_in_span (by decide) irq5 garbage 86
      IrqExampleTrait).2.2.2.2.2.2.1 irq5.intie (by simp)⟩

/-! ## The write footprint of `Init` -/

/-- Claim C14, evaluated on the code. On the `n200` map, `Init` of the example trait with the
valid pack `irq5, irq9` from a register block filled with `0xFF` returns a state in which
three bytes outside the claimed footprint have changed from `0xFF` to 0: the byte after the
global config byte and the byte after the global threshold byte (the two global values are
stored as 32-bit words), and the byte at `base + 352`, past the end `base + 4 * 87` of the
per-source span (the clearing loop runs up to `base + 16 * 87`). -/
theorem Eclic.Init_changes_bytes_outside_footprint :
    Eclic.base n200 + 4 * n200.ECLIC_NUM_INTERRUPTS ≤ Eclic.base n200 + 352 ∧
    garbage.mem (Eclic.cfg n200 + 1) = 0xFF ∧ garbage.mem (Eclic.mth n200 + 1) = 0xFF ∧
    garbage.mem (Eclic.base n200 + 352) = 0xFF ∧
    ∃ s, Eclic.Init EclicExampleTrait [irq5, irq9] garbage = some s ∧
      s.mem (Eclic.cfg n200 + 1) = 0 ∧ s.mem (Eclic.mth n200 + 1) = 0 ∧
      s.mem (Eclic.base n200 + 352) = 0 := by
  refine ⟨by decide, rfl, rfl, rfl, _,
    Eclic.Init_eq_some EclicExampleTrait irq5 [irq9] garbage (by decide) (by decide), ?_, ?_, ?_⟩
  · rw [Eclic.InitBody_mem_of_ne EclicExampleTrait [irq5, irq9] garbage _ (by decide)]
    decide
  · rw [Eclic.InitBody_mem_of_ne EclicExampleTrait [irq5, irq9] garbage _ (by decide)]
    decide
  · rw [Eclic.InitBody_mem_of_ne EclicExampleTrait [irq5, irq9] garbage _ (by decide)]
    decide

/-- The actual footprint of the body of `Init`: a byte covered by none of the writes of
`Eclic.InitWrites` keeps its value. -/
theorem Eclic.InitBody_mem_of_not_covered {m : EclicMap} (tr : EclicTrait)
    (ds : List (Interrupt m)) (s : Machine) (a : Nat)
    (h : ¬ covered (Eclic.InitWrites tr ds) a) : (Eclic.InitBody tr ds s).mem a = s.mem a := by
  rw [Eclic.InitBody_eq_execs]
  exact Machine.execs_mem_of_not_covered _ s a h

/-! ## The control byte and out-of-range priorities -/

theorem Interrupt.kIntCfgMask_eq_mod {m : EclicMap} (hb : m.ECLICINTCTLBITS ≤ 8)
    (d : Interrupt m) :
    d.kIntCfgMask = (d.kPriorityLevel % 2 ^ m.ECLICINTCTLBITS) <<< (8 - m.ECLICINTCTLBITS) := by
  have h8 : 2 ^ 8 = 2 ^ m.ECLICINTCTLBITS * 2 ^ (8 - m.ECLICINTCTLBITS) := by
    rw [← Nat.pow_add]
    congr 1
    omega
  rw [Interrupt.kIntCfgMask, uint8, Nat.shiftLeft_eq, Nat.shiftLeft_eq, h8,
    Nat.mul_mod_mul_right]

/-- Claim C15. The descriptor accepts every 8-bit priority value (instantiation checks only
the identifier), and for every usable-bit count `b = ECLICINTCTLBITS ≤ 8` the control byte is
`(p mod 2^b) << (8 - b)`: its `8 - b` low bits are 0, and two descriptors whose priorities
agree modulo `2^b` have the same control byte. -/
theorem Interrupt.kIntCfgMask_ignores_high_priority_bits {m : EclicMap}
    (hb : m.ECLICINTCTLBITS ≤ 8) (d e : Interrupt m) (src p : Nat) (hmode : HandleMode)
    (trig : Trigger) (hsrc : src < m.ECLIC_NUM_INTERRUPTS) (hp : p < 256) :
    (∃ x, Interrupt.instantiate m src ⟨hmode, trig, p⟩ = some x ∧ x.kPriorityLevel = p) ∧
    d.kPriorityLevel < 256 ∧
    d.kIntCfgMask = (d.kPriorityLevel % 2 ^ m.ECLICINTCTLBITS) <<< (8 - m.ECLICINTCTLBITS) ∧
    d.kIntCfgMask % 2 ^ (8 - m.ECLICINTCTLBITS) = 0 ∧
    (d.kPriorityLevel % 2 ^ m.ECLICINTCTLBITS = e.kPriorityLevel % 2 ^ m.ECLICINTCTLBITS →
      d.kIntCfgMask = e.kIntCfgMask) := by
  refine ⟨⟨{ tInterruptSource := src, Trait := ⟨hmode, trig, p⟩, source_in_range := hsrc }, ?_, ?_⟩,
    Nat.mod_lt _ (by decide), Interrupt.kIntCfgMask_eq_mod hb d, ?_, ?_⟩
  · simp only [Interrupt.instantiate, dif_pos hsrc]
  · exact uint8_of_lt hp
  · rw [Interrupt.kIntCfgMask_eq_mod hb d, Nat.shiftLeft_eq, Nat.mul_mod_left]
  · intro h
    rw [Interrupt.kIntCfgMask_eq_mod hb d, Interrupt.kIntCfgMask_eq_mod hb e, h]

/-- Claim C15, instance: with the 4 usable bits of `n200`, source 5 with priority 13 (`irq5`)
and source 5 with priority 29 = 13 + 16 both have the control byte `0xD0`. -/
theorem Interrupt.kIntCfgMask_ignores_high_priority_bits_witness :
    n200.ECLICINTCTLBITS ≤ 8 ∧
    (∃ x, Interrupt.instantiate n200 5 ⟨.NonVectored, .Level, 29⟩ = some x ∧
      x.kPriorityLevel = 29) ∧
    irq5.kIntCfgMask = 0xD0 ∧
    irq5.kIntCfgMask =
      (⟨5, ⟨.NonVectored, .Level, 29⟩, by decide⟩ : Interrupt n200).kIntCfgMask :=
  ⟨by decide,
   (Interrupt.kIntCfgMask_ignores_high_priority_bits (by decide) irq5
      (⟨5, ⟨.NonVectored, .Level, 29⟩, by decide⟩ : Interrupt n200) 5 29 .NonVectored .Level
      (by decide) (by decide)).1,
   by decide,
   (Interrupt.kIntCfgMask_ignores_high_priority_bits (by decide) irq5
      (⟨5, ⟨.NonVectored, .Level, 29⟩, by decide⟩ : Interrupt n200) 5 29 .NonVectored .Level
      (by decide) (by decide)).2.2.2.2 (by decide)⟩

/-! ## The two instruction forms of the CSR primitive -/

theorem not32_testBit {x : Nat} (hx : x < 2 ^ 32) (i : Nat) :
    (not32 x).testBit i = (decide (i < 32) && !x.testBit i) := by
  have e : not32 x = 2 ^ 32 - (x + 1) := by
    rw [not32, uint32_of_lt hx]
    omega
  rw [e, Nat.testBit_two_pow_sub_succ hx]

/-- Claim C16. For a writable CSR, every CSR file and every operand below 32, the
immediate form (operand known at compile time) and the register form of `Write`, `Set` and
`Clear` return the same CSR file: after `Write(v)` the register holds `v`, after `Set(m)` it
holds `old | m`, after `Clear(m)` it holds `old & ~m` (bit `i` of the result is bit `i` of
`old` and not bit `i` of `m`, for a 32-bit `old`), and no other register changes. -/
theorem AbstractCsr.immediate_and_register_forms_agree (c : AbstractCsr) (v : Nat)
    (f : CsrFile) (hw : c.kAccessibility = .MRW ∨ c.kAccessibility = .URW) (hv : v < 32) :
    (∃ g, c.Write true v f = some g ∧ c.Write false v f = some g ∧ g c.kAddress = v ∧
      ∀ a, a ≠ c.kAddress → g a = f a) ∧
    (∃ g, c.Set true v f = some g ∧ c.Set false v f = some g ∧
      g c.kAddress = f c.kAddress ||| v ∧ ∀ a, a ≠ c.kAddress → g a = f a) ∧
    (∃ g, c.Clear true v f = some g ∧ c.Clear false v f = some g ∧
      g c.kAddress = f c.kAddress &&& (2 ^ 32 - 1 - v) ∧
      (f c.kAddress < 2 ^ 32 →
        ∀ i, (g c.kAddress).testBit i = ((f c.kAddress).testBit i && !v.testBit i)) ∧
      ∀ a, a ≠ c.kAddress → g a = f a) := by
  have hwr : c.writable = true := by
    rcases hw with h | h <;> simp [AbstractCsr.writable, h]
  have h32 : uint32 v = v := uint32_of_lt (lt_trans hv (by decide))
  have hm : v % 32 = v := Nat.mod_eq_of_lt hv
  have hlt : uint32 v < 32 := by rw [h32]; exact hv
  have hn : not32 v = 2 ^ 32 - 1 - v := by rw [not32, h32]
  refine ⟨⟨csrw c.kAddress v f, ?_, ?_, ?_, ?_⟩, ⟨csrs c.kAddress v f, ?_, ?_, ?_, ?_⟩,
    ⟨csrc c.kAddress v f, ?_, ?_, ?_, ?_, ?_⟩⟩
  · simp only [AbstractCsr.Write, hwr, if_true, h32, Bool.true_and, decide_eq_true_eq, if_pos hv]
    congr 1
    funext a
    simp only [csrrwi, csrw, hm, h32]
  · simp [AbstractCsr.Write, hwr, h32]
  · simp [csrw, h32]
  · intro a ha
    simp [csrw, ha]
  · simp only [AbstractCsr.Set, hwr, if_true, h32, Bool.true_and, decide_eq_true_eq, if_pos hv]
    congr 1
    funext a
    simp only [csrsi, csrs, hm, h32]
  · simp [AbstractCsr.Set, hwr, h32]
  · simp [csrs, h32]
  · intro a ha
    simp [csrs, ha]
  · simp only [AbstractCsr.Clear, hwr, if_true, h32, Bool.true_and, decide_eq_true_eq,
      if_pos hv]
    congr 1
    funext a
    simp only [csrci, csrc, hm]
  · simp [AbstractCsr.Clear, hwr, h32]
  · simp only [csrc, if_true, hn]
  · intro hold i
    have hv32 : v < 2 ^ 32 := lt_trans hv (by decide)
    simp only [csrc, if_true, Nat.testBit_land, not32_testBit hv32]
    by_cases hi : i < 32
    · simp [hi]
    · have hfalse : (f c.kAddress).testBit i = false :=
        Nat.testBit_lt_two_pow (lt_of_lt_of_le hold (Nat.pow_le_pow_right (by decide)
          (Nat.not_lt.1 hi)))
      simp [hfalse]
  · intro a ha
    simp [csrc, ha]

/-- Claim C16, instance: the writable CSR `MSTATUS` (address `0x300`, tag `MRW`), operand 8,
on a CSR file holding `0xFF` everywhere. -/
theorem AbstractCsr.immediate_and_register_forms_agree_witness :
    ∃ g, (⟨0x300, .MRW, by decide⟩ : AbstractCsr).Clear true 8 (fun _ => 0xFF) = some g ∧
      (⟨0x300, .MRW, by decide⟩ : AbstractCsr).Clear false 8 (fun _ => 0xFF) = some g ∧
      g 0x300 = 0xF7 := by
  obtain ⟨g, h1, h2, h3, -, -⟩ :=
    (AbstractCsr.immediate_and_register_forms_agree ⟨0x300, .MRW, by decide⟩ 8
      (fun _ => 0xFF) (Or.inl rfl) (by decide)).2.2
  exact ⟨g, h1, h2, by rw [h3]; decide⟩

/-! ## The tick counter -/

theorem IncTick_iterate_systime (n : Nat) (s : TickState) :
    (IncTick^[n] s).systime = if n = 0 then s.systime else uint32 (s.systime + n) := by
  induction n with
  | zero => rfl
  | succ n ih =>
    rw [Function.iterate_succ_apply', IncTick, ih, if_neg (Nat.succ_ne_zero n)]
    by_cases h : n = 0
    · subst h
      rfl
    · simp only [if_neg h, uint32]
      omega

/-- Claim C17. For every `n` and every counter value, after `ResetTick` followed by `n` calls
of `IncTick`, `GetTick` returns `n mod 2^32`; `GetTick` leaves the counter as it is, and
`ResetTick` sets it to 0 from any value. -/
theorem GetTick_after_ResetTick_and_IncTicks (n : Nat) (s : TickState) :
    (GetTick (IncTick^[n] (ResetTick s))).1 = n % 2 ^ 32 ∧
    (GetTick s).2 = s ∧ (GetTick s).1 = s.systime ∧
    (ResetTick s).systime = 0 := by
  refine ⟨?_, rfl, rfl, rfl⟩
  show (IncTick^[n] (ResetTick s)).systime = n % 2 ^ 32
  rw [IncTick_iterate_systime]
  by_cases h : n = 0
  · subst h
    rfl
  · simp only [if_neg h, ResetTick, uint32, Nat.zero_add]

end mpp.core
